import Mathlib

/-!
Verification development for an ECS (entity-component-system) core.

The definitions below are a shallow embedding of the Rust sources:
`bitmap.rs`, `access.rs`, `system/mod.rs`, `schedule.rs`, `entity.rs`,
`event.rs`, `storage/sparse_set/mod.rs`, `component.rs`, `world.rs` and
`system/commands.rs`.  Machine integers are modelled as `Nat`; the only
arithmetic where overflow can matter for the proved statements is the
`u16` entity-version bump in `Entities::despawn`, which is modelled with
the debug-profile overflow check (a panic, i.e. `none`).  Panicking
control flow (`assert!`, `expect`, out-of-bounds indexing) is modelled by
`Option`, with `none` for a panic.  Component and resource hooks
(`on_add` / `on_remove`) are the trait-default no-ops throughout.
-/

namespace EcsSpec

/-- Fuel-driven helper for `popCount`; the fuel is only there to make the
recursion structural, `popCount` passes enough of it for any input. -/
def popCountGo : Nat → Nat → Nat
  | 0, _ => 0
  | _ + 1, 0 => 0
  | fuel + 1, m + 1 => (m + 1) % 2 + popCountGo fuel ((m + 1) / 2)

/-- Population count of a natural number viewed as a bit set
(`u128::count_ones` in `bitmap.rs`). -/
def popCount (n : Nat) : Nat := popCountGo n n

/-- `Bitmap::with_set` (`bitmap.rs`): set bit `index`.  The `assert!(index <
MAX_COMPONENTS)` guard does not change the success-path value and the claims
only ever use indices below the width. -/
def bitmapWithSet (b index : Nat) : Nat := b ||| (1 <<< index)

/-- Swap two positions of a list (`<[T]>::swap`); indices are valid on every
success path of the code, the fallback branch models the out-of-bounds panic
by leaving the list unchanged (its callers are `Option`-guarded). -/
def listSwap (l : List α) (i j : Nat) : List α :=
  match l[i]?, l[j]? with
  | some a, some b => (l.set i b).set j a
  | _, _ => l

/-- `Vec::swap_remove`: replace position `i` with the last element and pop. -/
def vecSwapRemove (l : List α) (i : Nat) : List α :=
  (listSwap l i (l.length - 1)).dropLast

/-- `SparseArray::get` (`storage/sparse_set/mod.rs` lines 207-210): reads
return the `NONE` sentinel (here `none`) beyond the backing vector. -/
def sparseArrayGet (l : List (Option Nat)) (id : Nat) : Option Nat :=
  (l[id]?).join

/-- `SparseArray::set` (`storage/sparse_set/mod.rs` lines 212-218): resize
with the `NONE` sentinel when needed, then write. -/
def sparseArraySet (l : List (Option Nat)) (id : Nat) (idx : Option Nat) : List (Option Nat) :=
  (if l.length ≤ id then l ++ List.replicate (id + 1 - l.length) none else l).set id idx

/-- `SparseSet<T>` (`storage/sparse_set/mod.rs` lines 31-35).  The
`SparseIndex` sentinel `usize::MAX` is embedded as `Option Nat`. -/
structure SparseSet (α : Type) where
  sparse_array : List (Option Nat)
  dense : List α
  mapping : List Nat
deriving DecidableEq

/-- `SparseSet::new` / `default`. -/
def SparseSet.empty : SparseSet α := ⟨[], [], []⟩

/-- `SparseSet::get`: sparse lookup, then dense read.  A dense read out of
bounds is a Rust panic; it is collapsed to `none` here and ruled out by the
well-formedness invariant wherever a statement depends on it. -/
def SparseSet.get (s : SparseSet α) (id : Nat) : Option α :=
  match sparseArrayGet s.sparse_array id with
  | none => none
  | some index => s.dense[index]?

/-- `SparseSet::contains`. -/
def SparseSet.contains (s : SparseSet α) (id : Nat) : Bool :=
  (sparseArrayGet s.sparse_array id).isSome

/-- `SparseSet::insert` (lines 110-122): overwrite-and-return-prior when
present, else append to `dense` and `mapping` and point the sparse slot at the
new back index. -/
def SparseSet.insert (s : SparseSet α) (id : Nat) (v : α) : Option α × SparseSet α :=
  match sparseArrayGet s.sparse_array id with
  | some index => (s.dense[index]?, { s with dense := s.dense.set index v })
  | none =>
    (none,
      { sparse_array := sparseArraySet s.sparse_array id (some s.dense.length)
        dense := s.dense ++ [v]
        mapping := s.mapping ++ [id] })

/-- `SparseSet::remove` (lines 139-154): swap the victim with the dense back,
repoint the back key, clear the victim key, pop. -/
def SparseSet.remove (s : SparseSet α) (id : Nat) : Option α × SparseSet α :=
  match sparseArrayGet s.sparse_array id with
  | none => (none, s)
  | some index =>
    let denseLen := s.dense.length
    let back := (s.mapping[denseLen - 1]?).getD 0
    let dense2 := listSwap s.dense index (denseLen - 1)
    let mapping2 := listSwap s.mapping index (denseLen - 1)
    let sa1 := sparseArraySet s.sparse_array back (some index)
    let sa2 := sparseArraySet sa1 id none
    (dense2.getLast?, { sparse_array := sa2, dense := dense2.dropLast, mapping := mapping2.dropLast })

/-- In-place mutation through `SparseSet::get_mut`: no structural change,
only the pointed-at dense slot is rewritten. -/
def SparseSet.modifyAt (s : SparseSet α) (id : Nat) (f : α → α) : SparseSet α :=
  match sparseArrayGet s.sparse_array id with
  | none => s
  | some index =>
    match s.dense[index]? with
    | none => s
    | some v => { s with dense := s.dense.set index (f v) }

/-- `SparseSet::entry(id).or_default()` followed by an in-place mutation of
the returned reference: occupied entries are rewritten in place, vacant
entries materialize `f d` at a fresh back slot. -/
def SparseSet.entryOrDefaultModify (s : SparseSet α) (id : Nat) (d : α) (f : α → α) :
    SparseSet α :=
  match sparseArrayGet s.sparse_array id with
  | some index =>
    match s.dense[index]? with
    | some v => { s with dense := s.dense.set index (f v) }
    | none => s
  | none =>
    { sparse_array := sparseArraySet s.sparse_array id (some s.dense.length)
      dense := s.dense ++ [f d]
      mapping := s.mapping ++ [id] }

/-- Executable well-formedness check of a sparse set; `SparseSet.WF` below is
its propositional form. -/
def SparseSet.wf (s : SparseSet α) : Bool :=
  (s.dense.length == s.mapping.length) &&
  ((List.range s.mapping.length).all fun i =>
    match s.mapping[i]? with
    | some k => sparseArrayGet s.sparse_array k == some i
    | none => true) &&
  ((List.range s.sparse_array.length).all fun k =>
    match sparseArrayGet s.sparse_array k with
    | some i => s.mapping[i]? == some k
    | none => true)

/-- Coherence invariant of a sparse set (`storage/sparse_set` doc): dense and
mapping run in parallel, the sparse array and the mapping are inverse to each
other.  Every state reachable through the container's API satisfies it. -/
def SparseSet.WF (s : SparseSet α) : Prop :=
  s.dense.length = s.mapping.length ∧
  (∀ i k, s.mapping[i]? = some k → sparseArrayGet s.sparse_array k = some i) ∧
  (∀ k i, sparseArrayGet s.sparse_array k = some i → s.mapping[i]? = some k)

/-- Reads beyond the sparse array are the sentinel. -/
theorem sparseArrayGet_of_le {l : List (Option Nat)} {k : Nat} (h : l.length ≤ k) :
    sparseArrayGet l k = none := by
  unfold sparseArrayGet
  rw [List.getElem?_eq_none_iff.mpr h]
  rfl

/-- The executable check decides the invariant. -/
theorem SparseSet.wf_iff (s : SparseSet α) : s.wf = true ↔ s.WF := by
  unfold SparseSet.wf SparseSet.WF
  simp only [Bool.and_eq_true, beq_iff_eq, List.all_eq_true, List.mem_range]
  constructor
  · rintro ⟨⟨h1, h2⟩, h3⟩
    refine ⟨h1, ?_, ?_⟩
    · intro i k hik
      have hi : i < s.mapping.length := by
        by_contra hge
        rw [List.getElem?_eq_none_iff.mpr (by omega)] at hik
        cases hik
      have h4 := h2 i hi
      rw [hik] at h4
      simpa using h4
    · intro k i hki
      have hk : k < s.sparse_array.length := by
        by_contra hge
        rw [sparseArrayGet_of_le (by omega)] at hki
        cases hki
      have h4 := h3 k hk
      rw [hki] at h4
      simpa using h4
  · rintro ⟨h1, h2, h3⟩
    refine ⟨⟨h1, ?_⟩, ?_⟩
    · intro i _
      cases hik : s.mapping[i]? with
      | none => rfl
      | some k => simpa using h2 i k hik
    · intro k _
      cases hki : sparseArrayGet s.sparse_array k with
      | none => rfl
      | some i => simpa using h3 k i hki

/-- Writing a sparse slot and reading it back. -/
theorem sparseArraySet_get_self (l : List (Option Nat)) (id : Nat) (idx : Option Nat) :
    sparseArrayGet (sparseArraySet l id idx) id = idx := by
  unfold sparseArraySet sparseArrayGet
  by_cases h : l.length ≤ id
  · rw [if_pos h]
    rw [List.getElem?_set]
    rw [if_pos rfl, if_pos (by simp [List.length_replicate]; omega)]
    rfl
  · rw [if_neg h]
    rw [List.getElem?_set]
    rw [if_pos rfl, if_pos (by omega)]
    rfl

/-- Writing a sparse slot leaves the other slots unchanged. -/
theorem sparseArraySet_get_other (l : List (Option Nat)) (id : Nat) (idx : Option Nat)
    {k : Nat} (hk : k ≠ id) :
    sparseArrayGet (sparseArraySet l id idx) k = sparseArrayGet l k := by
  unfold sparseArraySet sparseArrayGet
  by_cases h : l.length ≤ id
  · rw [if_pos h, List.getElem?_set, if_neg (by omega)]
    rw [List.getElem?_append]
    by_cases hkl : k < l.length
    · rw [if_pos hkl]
    · rw [if_neg hkl, List.getElem?_replicate,
        List.getElem?_eq_none_iff.mpr (show l.length ≤ k by omega)]
      by_cases hkr : k - l.length < id + 1 - l.length
      · rw [if_pos hkr]
        rfl
      · rw [if_neg hkr]
  · rw [if_neg h, List.getElem?_set, if_neg (by omega)]

/-- Swapping preserves the length. -/
theorem listSwap_length (l : List α) (i j : Nat) : (listSwap l i j).length = l.length := by
  unfold listSwap
  cases h1 : l[i]? <;> cases h2 : l[j]? <;> simp

/-- Reading a swapped list at any position. -/
theorem listSwap_getElem? (l : List α) {i j : Nat} (k : Nat)
    (hi : i < l.length) (hj : j < l.length) :
    (listSwap l i j)[k]? = if k = i then l[j]? else if k = j then l[i]? else l[k]? := by
  unfold listSwap
  rw [List.getElem?_eq_getElem hi, List.getElem?_eq_getElem hj]
  by_cases hki : k = i
  · subst hki
    by_cases hkj : k = j
    · subst hkj
      simp [List.getElem?_set, hi]
    · simp [List.getElem?_set, List.length_set, hi, hkj, Ne.symm hkj,
        List.getElem?_eq_getElem hj]
  · by_cases hkj : k = j
    · subst hkj
      simp [List.getElem?_set, List.length_set, hki, Ne.symm hki, hj,
        List.getElem?_eq_getElem hi]
    · simp [List.getElem?_set, hki, hkj, Ne.symm hki, Ne.symm hkj]

/-- Under the invariant, a sparse hit bounds the dense index and is reflected
in the mapping. -/
theorem SparseSet.WF.index_lt {s : SparseSet α} (h : s.WF) {k i : Nat}
    (hki : sparseArrayGet s.sparse_array k = some i) :
    i < s.dense.length ∧ s.mapping[i]? = some k := by
  have h1 := h.1
  have hm := h.2.2 k i hki
  have hi : i < s.mapping.length := by
    by_contra hge
    rw [List.getElem?_eq_none_iff.mpr (by omega)] at hm
    cases hm
  exact ⟨by omega, hm⟩

/-- Unfolding `get` on a sparse hit. -/
theorem SparseSet.get_eq_of_sparse_some (s : SparseSet α) (id idx : Nat)
    (h : sparseArrayGet s.sparse_array id = some idx) : s.get id = s.dense[idx]? := by
  unfold SparseSet.get
  rw [h]

/-- Unfolding `get` on a sparse miss. -/
theorem SparseSet.get_eq_of_sparse_none (s : SparseSet α) (id : Nat)
    (h : sparseArrayGet s.sparse_array id = none) : s.get id = none := by
  unfold SparseSet.get
  rw [h]

/-- Closed form of `insert` on an occupied key. -/
theorem SparseSet.insert_eq_occupied {s : SparseSet α} {id idx : Nat} (v : α)
    (hid : sparseArrayGet s.sparse_array id = some idx) :
    s.insert id v = (s.dense[idx]?, { s with dense := s.dense.set idx v }) := by
  unfold SparseSet.insert
  rw [hid]

/-- Closed form of `insert` on a vacant key. -/
theorem SparseSet.insert_eq_vacant {s : SparseSet α} {id : Nat} (v : α)
    (hid : sparseArrayGet s.sparse_array id = none) :
    s.insert id v =
      (none,
        { sparse_array := sparseArraySet s.sparse_array id (some s.dense.length)
          dense := s.dense ++ [v], mapping := s.mapping ++ [id] }) := by
  unfold SparseSet.insert
  rw [hid]

/-- The prior value returned by `insert` is exactly `get` of the key. -/
theorem SparseSet.insert_fst (s : SparseSet α) (id : Nat) (v : α) :
    (s.insert id v).1 = s.get id := by
  unfold SparseSet.insert SparseSet.get
  cases sparseArrayGet s.sparse_array id <;> rfl

/-- `insert` preserves the invariant. -/
theorem SparseSet.wf_insert {s : SparseSet α} (h : s.WF) (id : Nat) (v : α) :
    (s.insert id v).2.WF := by
  obtain ⟨h1, h2, h3⟩ := h
  unfold SparseSet.insert
  cases hid : sparseArrayGet s.sparse_array id with
  | some index =>
    exact ⟨by simpa using h1, h2, h3⟩
  | none =>
    refine ⟨by simp [h1], ?_, ?_⟩
    · intro i k hik
      by_cases hi : i < s.mapping.length
      · rw [List.getElem?_append, if_pos hi] at hik
        have hne : k ≠ id := by
          intro hkid
          subst hkid
          rw [h2 i k hik] at hid
          cases hid
        rw [sparseArraySet_get_other _ _ _ hne]
        exact h2 i k hik
      · rw [List.getElem?_append, if_neg hi] at hik
        cases hd : i - s.mapping.length with
        | zero =>
          rw [hd] at hik
          obtain rfl : id = k := by simpa using hik
          have hieq : i = s.dense.length := by omega
          subst hieq
          rw [sparseArraySet_get_self]
        | succ n =>
          rw [hd] at hik
          simp at hik
    · intro k i hki
      by_cases hk : k = id
      · subst hk
        rw [sparseArraySet_get_self] at hki
        obtain rfl := Option.some.inj hki
        rw [List.getElem?_append, if_neg (by omega)]
        rw [show s.dense.length - s.mapping.length = 0 by omega]
        rfl
      · rw [sparseArraySet_get_other _ _ _ hk] at hki
        have hm := h3 k i hki
        have hi : i < s.mapping.length := by
          by_contra hge
          rw [List.getElem?_eq_none_iff.mpr (by omega)] at hm
          cases hm
        rw [List.getElem?_append, if_pos hi]
        exact hm

/-- Reading the inserted key back. -/
theorem SparseSet.get_insert_self {s : SparseSet α} (h : s.WF) (id : Nat) (v : α) :
    (s.insert id v).2.get id = some v := by
  cases hid : sparseArrayGet s.sparse_array id with
  | some index =>
    have hlt := (h.index_lt hid).1
    rw [SparseSet.insert_eq_occupied v hid]
    show SparseSet.get { s with dense := s.dense.set index v } id = some v
    rw [SparseSet.get_eq_of_sparse_some { s with dense := s.dense.set index v } id index hid]
    show (s.dense.set index v)[index]? = some v
    rw [List.getElem?_set, if_pos rfl, if_pos hlt]
  | none =>
    rw [SparseSet.insert_eq_vacant v hid]
    show SparseSet.get
      { sparse_array := sparseArraySet s.sparse_array id (some s.dense.length)
        dense := s.dense ++ [v], mapping := s.mapping ++ [id] } id = some v
    rw [SparseSet.get_eq_of_sparse_some _ id s.dense.length
      (sparseArraySet_get_self s.sparse_array id _)]
    show (s.dense ++ [v])[s.dense.length]? = some v
    rw [List.getElem?_concat_length]

/-- Inserting one key does not disturb another. -/
theorem SparseSet.get_insert_other {s : SparseSet α} (h : s.WF) {id k : Nat}
    (hne : k ≠ id) (v : α) : (s.insert id v).2.get k = s.get k := by
  cases hid : sparseArrayGet s.sparse_array id with
  | some index =>
    rw [SparseSet.insert_eq_occupied v hid]
    show SparseSet.get { s with dense := s.dense.set index v } k = s.get k
    cases hk : sparseArrayGet s.sparse_array k with
    | none =>
      rw [SparseSet.get_eq_of_sparse_none { s with dense := s.dense.set index v } k hk,
        SparseSet.get_eq_of_sparse_none s k hk]
    | some j =>
      have hi := h.index_lt hid
      have hj := h.index_lt hk
      have hij : index ≠ j := by
        intro he
        subst he
        have h2 := hi.2.symm.trans hj.2
        exact hne (Option.some.inj h2).symm
      rw [SparseSet.get_eq_of_sparse_some { s with dense := s.dense.set index v } k j hk,
        SparseSet.get_eq_of_sparse_some s k j hk]
      show (s.dense.set index v)[j]? = s.dense[j]?
      rw [List.getElem?_set, if_neg hij]
  | none =>
    rw [SparseSet.insert_eq_vacant v hid]
    have hother :
        sparseArrayGet (sparseArraySet s.sparse_array id (some s.dense.length)) k
          = sparseArrayGet s.sparse_array k :=
      sparseArraySet_get_other s.sparse_array id _ hne
    cases hk : sparseArrayGet s.sparse_array k with
    | none =>
      rw [SparseSet.get_eq_of_sparse_none _ k (hother.trans hk),
        SparseSet.get_eq_of_sparse_none s k hk]
    | some j =>
      have hj := (h.index_lt hk).1
      rw [SparseSet.get_eq_of_sparse_some _ k j (hother.trans hk),
        SparseSet.get_eq_of_sparse_some s k j hk]
      show (s.dense ++ [v])[j]? = s.dense[j]?
      rw [List.getElem?_append, if_pos hj]

/-- Under the invariant, the key mapping of a sparse set has no duplicate. -/
theorem SparseSet.wf_mapping_nodup {s : SparseSet α} (h : s.WF) : s.mapping.Nodup := by
  rw [List.nodup_iff_injective_get]
  intro i j hij
  have hi : s.mapping[i.1]? = some (s.mapping.get i) := by
    rw [List.getElem?_eq_getElem i.2]
    rfl
  have hj : s.mapping[j.1]? = some (s.mapping.get j) := by
    rw [List.getElem?_eq_getElem j.2]
    rfl
  rw [hij] at hi
  have e1 := h.2.1 i.1 _ hi
  have e2 := h.2.1 j.1 _ hj
  exact Fin.ext (Option.some.inj (e1.symm.trans e2))

/-- Under the invariant, the mapping holds a key exactly once when the key is
present and never otherwise. -/
theorem SparseSet.count_mapping {s : SparseSet α} (h : s.WF) (id : Nat) :
    s.mapping.count id = if (sparseArrayGet s.sparse_array id).isSome then 1 else 0 := by
  cases hid : sparseArrayGet s.sparse_array id with
  | some i =>
    have hm := (h.index_lt hid).2
    have hmem : id ∈ s.mapping := List.getElem?_mem hm
    simp only [Option.isSome_some, if_true]
    exact List.count_eq_one_of_mem (SparseSet.wf_mapping_nodup h) hmem
  | none =>
    simp only [Option.isSome_none, Bool.false_eq_true, if_false]
    rw [List.count_eq_zero]
    intro hmem
    obtain ⟨n, hn, he⟩ := List.getElem_of_mem hmem
    have := h.2.1 n id (by rw [List.getElem?_eq_getElem hn, he])
    rw [hid] at this
    cases this

/-- `remove` of an absent key is the identity. -/
theorem SparseSet.remove_eq_none {s : SparseSet α} {id : Nat}
    (hid : sparseArrayGet s.sparse_array id = none) :
    s.remove id = (none, s) := by
  unfold SparseSet.remove
  rw [hid]

/-- Closed form of `remove` of a present key. -/
theorem SparseSet.remove_eq {s : SparseSet α} {id idx : Nat}
    (hid : sparseArrayGet s.sparse_array id = some idx) {b : Nat}
    (hbm : s.mapping[s.dense.length - 1]? = some b) :
    s.remove id =
      ((listSwap s.dense idx (s.dense.length - 1)).getLast?,
        { sparse_array := sparseArraySet (sparseArraySet s.sparse_array b (some idx)) id none
          dense := (listSwap s.dense idx (s.dense.length - 1)).dropLast
          mapping := (listSwap s.mapping idx (s.dense.length - 1)).dropLast }) := by
  unfold SparseSet.remove
  rw [hid]
  simp only [hbm, Option.getD_some]

/-- `remove` preserves the invariant. -/
theorem SparseSet.wf_remove {s : SparseSet α} (h : s.WF) (id : Nat) :
    (s.remove id).2.WF := by
  cases hid : sparseArrayGet s.sparse_array id with
  | none =>
    rw [SparseSet.remove_eq_none hid]
    exact h
  | some idx =>
    obtain ⟨hidx, hmidx⟩ := h.index_lt hid
    have h1 := h.1
    have hl1 : s.dense.length - 1 < s.mapping.length := by omega
    cases hbm : s.mapping[s.dense.length - 1]? with
    | none =>
      rw [List.getElem?_eq_none_iff] at hbm
      omega
    | some b =>
    have hgb : sparseArrayGet s.sparse_array b = some (s.dense.length - 1) := h.2.1 _ _ hbm
    rw [SparseSet.remove_eq hid hbm]
    have hm2 : ∀ i2 : Nat, (listSwap s.mapping idx (s.dense.length - 1))[i2]? =
        if i2 = idx then s.mapping[s.dense.length - 1]?
        else if i2 = s.dense.length - 1 then s.mapping[idx]? else s.mapping[i2]? :=
      fun i2 => listSwap_getElem? s.mapping i2 (by omega) (by omega)
    have hm2len : (listSwap s.mapping idx (s.dense.length - 1)).length = s.mapping.length :=
      listSwap_length _ _ _
    have hd2len : (listSwap s.dense idx (s.dense.length - 1)).length = s.dense.length :=
      listSwap_length _ _ _
    refine ⟨?_, ?_, ?_⟩
    · show (listSwap s.dense idx (s.dense.length - 1)).dropLast.length
        = (listSwap s.mapping idx (s.dense.length - 1)).dropLast.length
      rw [List.length_dropLast, List.length_dropLast, hm2len, hd2len, h1]
    · intro i k hik
      show sparseArrayGet
        (sparseArraySet (sparseArraySet s.sparse_array b (some idx)) id none) k = some i
      rw [List.getElem?_dropLast] at hik
      by_cases hilt : i < (listSwap s.mapping idx (s.dense.length - 1)).length - 1
      · rw [if_pos hilt] at hik
        rw [hm2len] at hilt
        rw [hm2 i] at hik
        by_cases hi_idx : i = idx
        · subst hi_idx
          rw [if_pos rfl, hbm] at hik
          have hkb : k = b := (Option.some.inj hik).symm
          subst hkb
          have hbid : k ≠ id := by
            intro he
            rw [he, hid] at hgb
            have h5 := Option.some.inj hgb
            omega
          rw [sparseArraySet_get_other _ _ _ hbid, sparseArraySet_get_self]
        · rw [if_neg hi_idx, if_neg (by omega)] at hik
          have hkid : k ≠ id := by
            intro he
            subst he
            have h5 := h.2.1 i _ hik
            rw [hid] at h5
            exact hi_idx (Option.some.inj h5).symm
          have hkb : k ≠ b := by
            intro he
            subst he
            have h5 := h.2.1 i _ hik
            rw [hgb] at h5
            have h6 := Option.some.inj h5
            omega
          rw [sparseArraySet_get_other _ _ _ hkid, sparseArraySet_get_other _ _ _ hkb]
          exact h.2.1 i k hik
      · rw [if_neg hilt] at hik
        cases hik
    · intro k i hki
      show (listSwap s.mapping idx (s.dense.length - 1)).dropLast[i]? = some k
      by_cases hkid : k = id
      · subst hkid
        rw [sparseArraySet_get_self] at hki
        cases hki
      · rw [sparseArraySet_get_other _ _ _ hkid] at hki
        by_cases hkb : k = b
        · subst hkb
          rw [sparseArraySet_get_self] at hki
          obtain rfl := Option.some.inj hki
          have hne1 : idx ≠ s.dense.length - 1 := by
            intro he
            rw [he] at hmidx
            rw [hmidx] at hbm
            exact hkid (Option.some.inj hbm).symm
          rw [List.getElem?_dropLast, if_pos (by omega), hm2 idx, if_pos rfl, hbm]
        · rw [sparseArraySet_get_other _ _ _ hkb] at hki
          have hm := h.2.2 k i hki
          have hilt : i < s.mapping.length := by
            by_contra hge
            rw [List.getElem?_eq_none_iff.mpr (by omega)] at hm
            cases hm
          have hne1 : i ≠ idx := by
            intro he
            rw [he, hmidx] at hm
            exact hkid (Option.some.inj hm).symm
          have hne2 : i ≠ s.dense.length - 1 := by
            intro he
            rw [he, hbm] at hm
            exact hkb (Option.some.inj hm).symm
          rw [List.getElem?_dropLast, if_pos (by omega), hm2 i, if_neg hne1, if_neg hne2]
          exact hm

/-- After `remove`, the key is gone. -/
theorem SparseSet.get_remove_self {s : SparseSet α} (h : s.WF) (id : Nat) :
    (s.remove id).2.get id = none := by
  cases hid : sparseArrayGet s.sparse_array id with
  | none =>
    rw [SparseSet.remove_eq_none hid]
    exact SparseSet.get_eq_of_sparse_none s id hid
  | some idx =>
    obtain ⟨hidx, hmidx⟩ := h.index_lt hid
    have h1 := h.1
    cases hbm : s.mapping[s.dense.length - 1]? with
    | none =>
      rw [List.getElem?_eq_none_iff] at hbm
      omega
    | some b =>
      rw [SparseSet.remove_eq hid hbm]
      exact SparseSet.get_eq_of_sparse_none _ id (sparseArraySet_get_self _ id none)

/-- `remove` does not disturb other keys. -/
theorem SparseSet.get_remove_other {s : SparseSet α} (h : s.WF) {id k : Nat}
    (hne : k ≠ id) : (s.remove id).2.get k = s.get k := by
  cases hid : sparseArrayGet s.sparse_array id with
  | none =>
    rw [SparseSet.remove_eq_none hid]
  | some idx =>
    obtain ⟨hidx, hmidx⟩ := h.index_lt hid
    have h1 := h.1
    have hl1 : s.dense.length - 1 < s.mapping.length := by omega
    cases hbm : s.mapping[s.dense.length - 1]? with
    | none =>
      rw [List.getElem?_eq_none_iff] at hbm
      omega
    | some b =>
    have hgb : sparseArrayGet s.sparse_array b = some (s.dense.length - 1) := h.2.1 _ _ hbm
    rw [SparseSet.remove_eq hid hbm]
    have hd2 : ∀ i2 : Nat, (listSwap s.dense idx (s.dense.length - 1))[i2]? =
        if i2 = idx then s.dense[s.dense.length - 1]?
        else if i2 = s.dense.length - 1 then s.dense[idx]? else s.dense[i2]? :=
      fun i2 => listSwap_getElem? s.dense i2 hidx (by omega)
    have hd2len : (listSwap s.dense idx (s.dense.length - 1)).length = s.dense.length :=
      listSwap_length _ _ _
    cases hk : sparseArrayGet s.sparse_array k with
    | none =>
      have hkb : k ≠ b := by
        intro he
        rw [he, hgb] at hk
        cases hk
      rw [SparseSet.get_eq_of_sparse_none s k hk]
      refine SparseSet.get_eq_of_sparse_none _ k ?_
      rw [sparseArraySet_get_other _ _ _ hne, sparseArraySet_get_other _ _ _ hkb]
      exact hk
    | some j =>
      rw [SparseSet.get_eq_of_sparse_some s k j hk]
      by_cases hkb : k = b
      · subst hkb
        have hj : j = s.dense.length - 1 := by
          rw [hgb] at hk
          exact (Option.some.inj hk).symm
        have hine : idx ≠ s.dense.length - 1 := by
          intro he
          rw [he, hbm] at hmidx
          exact hne (Option.some.inj hmidx)
        refine Eq.trans (SparseSet.get_eq_of_sparse_some _ k idx ?_) ?_
        · rw [sparseArraySet_get_other _ _ _ hne, sparseArraySet_get_self]
        · show (listSwap s.dense idx (s.dense.length - 1)).dropLast[idx]? = s.dense[j]?
          rw [List.getElem?_dropLast, if_pos (by omega), hd2 idx, if_pos rfl, hj]
      · have hjlt : j < s.dense.length := (h.index_lt hk).1
        have hmj : s.mapping[j]? = some k := (h.index_lt hk).2
        have hne1 : j ≠ idx := by
          intro he
          rw [he, hmidx] at hmj
          exact hne (Option.some.inj hmj).symm
        have hne2 : j ≠ s.dense.length - 1 := by
          intro he
          rw [he, hbm] at hmj
          exact hkb (Option.some.inj hmj).symm
        refine Eq.trans (SparseSet.get_eq_of_sparse_some _ k j ?_) ?_
        · rw [sparseArraySet_get_other _ _ _ hne, sparseArraySet_get_other _ _ _ hkb]
          exact hk
        · show (listSwap s.dense idx (s.dense.length - 1)).dropLast[j]? = s.dense[j]?
          rw [List.getElem?_dropLast, if_pos (by omega), hd2 j, if_neg hne1, if_neg hne2]

/-- The value returned by `remove` is exactly `get` of the key. -/
theorem SparseSet.remove_fst {s : SparseSet α} (h : s.WF) (id : Nat) :
    (s.remove id).1 = s.get id := by
  cases hid : sparseArrayGet s.sparse_array id with
  | none =>
    rw [SparseSet.remove_eq_none hid, SparseSet.get_eq_of_sparse_none s id hid]
  | some idx =>
    obtain ⟨hidx, hmidx⟩ := h.index_lt hid
    have h1 := h.1
    cases hbm : s.mapping[s.dense.length - 1]? with
    | none =>
      rw [List.getElem?_eq_none_iff] at hbm
      omega
    | some b =>
      rw [SparseSet.remove_eq hid hbm]
      show (listSwap s.dense idx (s.dense.length - 1)).getLast? = s.get id
      rw [SparseSet.get_eq_of_sparse_some s id idx hid]
      rw [List.getLast?_eq_getElem?, listSwap_length]
      rw [listSwap_getElem? s.dense (s.dense.length - 1) hidx (by omega)]
      by_cases he : s.dense.length - 1 = idx
      · rw [if_pos he, he]
      · rw [if_neg he, if_pos rfl]

/-- Closed form of `modifyAt` on a present key. -/
theorem SparseSet.modifyAt_eq {s : SparseSet α} {id idx : Nat} (f : α → α)
    (hid : sparseArrayGet s.sparse_array id = some idx) {v : α}
    (hv : s.dense[idx]? = some v) :
    s.modifyAt id f = { s with dense := s.dense.set idx (f v) } := by
  unfold SparseSet.modifyAt
  simp only [hid, hv]

/-- `modifyAt` on an absent key is the identity. -/
theorem SparseSet.modifyAt_eq_none {s : SparseSet α} {id : Nat} (f : α → α)
    (hid : sparseArrayGet s.sparse_array id = none) : s.modifyAt id f = s := by
  unfold SparseSet.modifyAt
  rw [hid]

/-- `modifyAt` preserves the invariant (no structural change). -/
theorem SparseSet.wf_modifyAt {s : SparseSet α} (h : s.WF) (id : Nat) (f : α → α) :
    (s.modifyAt id f).WF := by
  cases hid : sparseArrayGet s.sparse_array id with
  | none =>
    rw [SparseSet.modifyAt_eq_none f hid]
    exact h
  | some idx =>
    have hlt := (h.index_lt hid).1
    have hv : s.dense[idx]? = some s.dense[idx] := List.getElem?_eq_getElem hlt
    rw [SparseSet.modifyAt_eq f hid hv]
    exact ⟨by simpa using h.1, h.2.1, h.2.2⟩

/-- Reading the modified key back. -/
theorem SparseSet.get_modifyAt_self {s : SparseSet α} (h : s.WF) (id : Nat) (f : α → α) :
    (s.modifyAt id f).get id = (s.get id).map f := by
  cases hid : sparseArrayGet s.sparse_array id with
  | none =>
    rw [SparseSet.modifyAt_eq_none f hid, SparseSet.get_eq_of_sparse_none s id hid]
    rfl
  | some idx =>
    have hlt := (h.index_lt hid).1
    have hv : s.dense[idx]? = some s.dense[idx] := List.getElem?_eq_getElem hlt
    rw [SparseSet.modifyAt_eq f hid hv]
    rw [SparseSet.get_eq_of_sparse_some { s with dense := s.dense.set idx (f s.dense[idx]) }
      id idx hid]
    rw [SparseSet.get_eq_of_sparse_some s id idx hid]
    show (s.dense.set idx (f s.dense[idx]))[idx]? = (s.dense[idx]?).map f
    rw [List.getElem?_set, if_pos rfl, if_pos hlt, hv]
    rfl

/-- `modifyAt` does not disturb other keys. -/
theorem SparseSet.get_modifyAt_other {s : SparseSet α} (h : s.WF) {id k : Nat}
    (hne : k ≠ id) (f : α → α) : (s.modifyAt id f).get k = s.get k := by
  cases hid : sparseArrayGet s.sparse_array id with
  | none =>
    rw [SparseSet.modifyAt_eq_none f hid]
  | some idx =>
    have hlt := (h.index_lt hid).1
    have hv : s.dense[idx]? = some s.dense[idx] := List.getElem?_eq_getElem hlt
    rw [SparseSet.modifyAt_eq f hid hv]
    cases hk : sparseArrayGet s.sparse_array k with
    | none =>
      rw [SparseSet.get_eq_of_sparse_none { s with dense := s.dense.set idx (f s.dense[idx]) }
        k hk, SparseSet.get_eq_of_sparse_none s k hk]
    | some j =>
      have hij : idx ≠ j := by
        intro he
        subst he
        have h2 := ((h.index_lt hid).2).symm.trans (h.index_lt hk).2
        exact hne (Option.some.inj h2).symm
      rw [SparseSet.get_eq_of_sparse_some { s with dense := s.dense.set idx (f s.dense[idx]) }
        k j hk, SparseSet.get_eq_of_sparse_some s k j hk]
      show (s.dense.set idx (f s.dense[idx]))[j]? = s.dense[j]?
      rw [List.getElem?_set, if_neg hij]

/-- Closed form of `entryOrDefaultModify` on an occupied key. -/
theorem SparseSet.eodm_eq_occupied {s : SparseSet α} {id idx : Nat} (d : α) (f : α → α)
    (hid : sparseArrayGet s.sparse_array id = some idx) {v : α}
    (hv : s.dense[idx]? = some v) :
    s.entryOrDefaultModify id d f = { s with dense := s.dense.set idx (f v) } := by
  unfold SparseSet.entryOrDefaultModify
  simp only [hid, hv]

/-- Closed form of `entryOrDefaultModify` on a vacant key. -/
theorem SparseSet.eodm_eq_vacant {s : SparseSet α} {id : Nat} (d : α) (f : α → α)
    (hid : sparseArrayGet s.sparse_array id = none) :
    s.entryOrDefaultModify id d f =
      { sparse_array := sparseArraySet s.sparse_array id (some s.dense.length)
        dense := s.dense ++ [f d], mapping := s.mapping ++ [id] } := by
  unfold SparseSet.entryOrDefaultModify
  rw [hid]

/-- `entryOrDefaultModify` preserves the invariant. -/
theorem SparseSet.wf_eodm {s : SparseSet α} (h : s.WF) (id : Nat) (d : α) (f : α → α) :
    (s.entryOrDefaultModify id d f).WF := by
  cases hid : sparseArrayGet s.sparse_array id with
  | some idx =>
    have hlt := (h.index_lt hid).1
    have hv : s.dense[idx]? = some s.dense[idx] := List.getElem?_eq_getElem hlt
    rw [SparseSet.eodm_eq_occupied d f hid hv]
    exact ⟨by simpa using h.1, h.2.1, h.2.2⟩
  | none =>
    rw [SparseSet.eodm_eq_vacant d f hid]
    have h2 := SparseSet.wf_insert h id (f d)
    rw [SparseSet.insert_eq_vacant (f d) hid] at h2
    exact h2

/-- Reading the `entryOrDefaultModify` key back. -/
theorem SparseSet.get_eodm_self {s : SparseSet α} (h : s.WF) (id : Nat) (d : α) (f : α → α) :
    (s.entryOrDefaultModify id d f).get id = some (f ((s.get id).getD d)) := by
  cases hid : sparseArrayGet s.sparse_array id with
  | some idx =>
    have hlt := (h.index_lt hid).1
    have hv : s.dense[idx]? = some s.dense[idx] := List.getElem?_eq_getElem hlt
    rw [SparseSet.eodm_eq_occupied d f hid hv]
    rw [SparseSet.get_eq_of_sparse_some { s with dense := s.dense.set idx (f s.dense[idx]) }
      id idx hid]
    show (s.dense.set idx (f s.dense[idx]))[idx]? = some (f ((s.get id).getD d))
    rw [List.getElem?_set, if_pos rfl, if_pos hlt]
    rw [SparseSet.get_eq_of_sparse_some s id idx hid, hv]
    rfl
  | none =>
    rw [SparseSet.eodm_eq_vacant d f hid]
    rw [SparseSet.get_eq_of_sparse_some
      { sparse_array := sparseArraySet s.sparse_array id (some s.dense.length)
        dense := s.dense ++ [f d], mapping := s.mapping ++ [id] } id s.dense.length
      (sparseArraySet_get_self s.sparse_array id _)]
    show (s.dense ++ [f d])[s.dense.length]? = some (f ((s.get id).getD d))
    rw [List.getElem?_concat_length, SparseSet.get_eq_of_sparse_none s id hid]
    rfl

/-- `entryOrDefaultModify` does not disturb other keys. -/
theorem SparseSet.get_eodm_other {s : SparseSet α} (h : s.WF) {id k : Nat} (hne : k ≠ id)
    (d : α) (f : α → α) : (s.entryOrDefaultModify id d f).get k = s.get k := by
  cases hid : sparseArrayGet s.sparse_array id with
  | some idx =>
    have hlt := (h.index_lt hid).1
    have hv : s.dense[idx]? = some s.dense[idx] := List.getElem?_eq_getElem hlt
    rw [SparseSet.eodm_eq_occupied d f hid hv]
    cases hk : sparseArrayGet s.sparse_array k with
    | none =>
      rw [SparseSet.get_eq_of_sparse_none { s with dense := s.dense.set idx (f s.dense[idx]) }
        k hk, SparseSet.get_eq_of_sparse_none s k hk]
    | some j =>
      have hij : idx ≠ j := by
        intro he
        subst he
        have h2 := ((h.index_lt hid).2).symm.trans (h.index_lt hk).2
        exact hne (Option.some.inj h2).symm
      rw [SparseSet.get_eq_of_sparse_some { s with dense := s.dense.set idx (f s.dense[idx]) }
        k j hk, SparseSet.get_eq_of_sparse_some s k j hk]
      show (s.dense.set idx (f s.dense[idx]))[j]? = s.dense[j]?
      rw [List.getElem?_set, if_neg hij]
  | none =>
    rw [SparseSet.eodm_eq_vacant d f hid]
    have h2 := SparseSet.get_insert_other h hne (f d)
    rw [SparseSet.insert_eq_vacant (f d) hid] at h2
    exact h2

/-- `Entity` (`entity.rs` lines 7-11): a `(u16, u16)` id/version pair. -/
structure Entity where
  id : Nat
  version : Nat
deriving DecidableEq

/-- `Access` (`access.rs`): two bitmaps plus a mutable-claim counter. -/
structure Access where
  immutable : Nat
  mutable : Nat
  mutable_count : Nat
deriving DecidableEq

/-- `Access::is_compatible` (`access.rs`). -/
def Access.is_compatible (a b : Access) : Bool :=
  (a.immutable &&& b.mutable == 0) &&
  (a.mutable &&& b.immutable == 0) &&
  (a.mutable &&& b.mutable == 0)

/-- `Access::join` (`access.rs`): union the bitmaps, sum the counters. -/
def Access.join (a b : Access) : Access :=
  { immutable := a.immutable ||| b.immutable
    mutable := a.mutable ||| b.mutable
    mutable_count := a.mutable_count + b.mutable_count }

/-- `Access::default` (all-empty access set). -/
def Access.empty : Access := { immutable := 0, mutable := 0, mutable_count := 0 }

/-- An initialized `FunctionSystem` (`system/mod.rs`): the access sets have
been materialized by `init` (lines 108-124).  `sysid` stands for the
`SystemId` identity, used only to tell systems apart. -/
structure FunctionSystem where
  sysid : Nat
  component_access : Access
  resource_access : Access
deriving DecidableEq

/-- `FunctionSystem::component_access` (`system/mod.rs` lines 86-90):
returns the materialized component access. -/
def FunctionSystem.getComponentAccess (s : FunctionSystem) : Access :=
  s.component_access

/-- `FunctionSystem::resource_access` (`system/mod.rs` lines 92-96): the
source returns `self.component_access` here, not `self.resource_access`. -/
def FunctionSystem.getResourceAccess (s : FunctionSystem) : Access :=
  s.component_access

/-- `FunctionSystem::validate` (`system/mod.rs` lines 61-70), `true` when all
four asserts pass.  It reads the accesses through the two getters above. -/
def FunctionSystem.validate (s : FunctionSystem) : Bool :=
  (s.getComponentAccess.mutable_count == popCount s.getComponentAccess.mutable) &&
  (s.getComponentAccess.immutable &&& s.getComponentAccess.mutable == 0) &&
  (s.getResourceAccess.mutable_count == popCount s.getResourceAccess.mutable) &&
  (s.getResourceAccess.immutable &&& s.getResourceAccess.mutable == 0)

/-- `ParallelBucket` (`schedule.rs` lines 152-158). -/
structure ParallelBucket where
  joined_component_access : Access
  joined_resource_access : Access
  systems : List FunctionSystem
  should_run_paralell : Bool
deriving DecidableEq

/-- `ParallelBucket::default`. -/
def ParallelBucket.empty : ParallelBucket :=
  { joined_component_access := Access.empty
    joined_resource_access := Access.empty
    systems := []
    should_run_paralell := false }

/-- `PARALLEL_EXECUTION_THRESHOLD` (`schedule.rs` line 5). -/
def PARALLEL_EXECUTION_THRESHOLD : Nat := 4

/-- `ParallelBucket::is_system_compatible` (`schedule.rs` lines 160-164). -/
def ParallelBucket.is_system_compatible (b : ParallelBucket) (s : FunctionSystem) : Bool :=
  b.joined_component_access.is_compatible s.getComponentAccess &&
  b.joined_resource_access.is_compatible s.getResourceAccess

/-- `ParallelBucket::add_system` (`schedule.rs` lines 166-171). -/
def ParallelBucket.add_system (b : ParallelBucket) (s : FunctionSystem) : ParallelBucket :=
  { joined_component_access := b.joined_component_access.join s.getComponentAccess
    joined_resource_access := b.joined_resource_access.join s.getResourceAccess
    systems := b.systems ++ [s]
    should_run_paralell :=
      b.should_run_paralell || decide (PARALLEL_EXECUTION_THRESHOLD ≤ b.systems.length + 1) }

/-- `Schedule` (`schedule.rs` lines 7-18): records pair each system with its
bucket index. -/
structure Schedule where
  system_records : List (FunctionSystem × Nat)
  parallel_execution_queue : List ParallelBucket
  init_queue : List FunctionSystem
deriving DecidableEq

/-- `Schedule::default`. -/
def Schedule.empty : Schedule :=
  { system_records := [], parallel_execution_queue := [], init_queue := [] }

/-- `Schedule::add_system` (`schedule.rs` lines 21-27): push onto the back of
the init queue. -/
def Schedule.add_system (sch : Schedule) (s : FunctionSystem) : Schedule :=
  { sch with init_queue := sch.init_queue ++ [s] }

/-- The bucket-placement scan of `Schedule::init_system` (`schedule.rs` lines
36-55): the system joins the first bucket whose joined access is compatible
with it, otherwise a fresh bucket is appended; returns the new bucket list and
the chosen bucket index. -/
def placeSystem : List ParallelBucket → FunctionSystem → List ParallelBucket × Nat
  | [], s => ([ParallelBucket.empty.add_system s], 0)
  | b :: bs, s =>
    if b.is_system_compatible s then (b.add_system s :: bs, 0)
    else
      let r := placeSystem bs s
      (b :: r.1, r.2 + 1)

/-- `Schedule::init_system` (`schedule.rs` lines 33-61): `system.init(world)`
materializes the accesses and runs `validate` (a failing assert is `none`),
then the system is placed into a bucket and recorded. -/
def Schedule.init_system (sch : Schedule) (s : FunctionSystem) : Option Schedule :=
  if s.validate then
    let r := placeSystem sch.parallel_execution_queue s
    some { sch with
            parallel_execution_queue := r.1
            system_records := sch.system_records ++ [(s, r.2)] }
  else none

/-- Initialize a list of pending systems front-to-back. -/
def initLoop : Schedule → List FunctionSystem → Option Schedule
  | sch, [] => some sch
  | sch, s :: rest => (sch.init_system s).bind (fun sch2 => initLoop sch2 rest)

/-- The init phase of `Schedule::run` (`schedule.rs` lines 105-107):
`while let Some(system) = self.init_queue.pop()` pops from the BACK of the
`Vec`, so the pending systems are initialized in reverse insertion order. -/
def Schedule.run_init (sch : Schedule) : Option Schedule :=
  initLoop { sch with init_queue := [] } sch.init_queue.reverse

/-- A system with an empty component access and a conflicting (mutable bit 0)
resource access; `sysRM2` is its twin with a different identity. -/
def sysRM1 : FunctionSystem :=
  { sysid := 1, component_access := Access.empty
    resource_access := { immutable := 0, mutable := 1, mutable_count := 1 } }

/-- Twin of `sysRM1` with a different identity. -/
def sysRM2 : FunctionSystem :=
  { sysid := 2, component_access := Access.empty
    resource_access := { immutable := 0, mutable := 1, mutable_count := 1 } }

/-- Two systems with no component access at all, used for scheduling-order
experiments. -/
def sysE1 : FunctionSystem :=
  { sysid := 1, component_access := Access.empty, resource_access := Access.empty }

/-- Twin of `sysE1` with a different identity. -/
def sysE2 : FunctionSystem :=
  { sysid := 2, component_access := Access.empty, resource_access := Access.empty }

/-- A system whose materialized resource access is self-conflicting (bit 0
claimed both immutably and mutably) and whose mutable counter disagrees with
the popcount of its mutable bitmap, while its component access is empty. -/
def sysBadRes : FunctionSystem :=
  { sysid := 3, component_access := Access.empty
    resource_access := { immutable := 1, mutable := 1, mutable_count := 5 } }

/-- The schedule state produced by initializing `sysE1` into an empty
schedule. -/
def c5SchResult : Schedule :=
  { system_records := [(sysE1, 0)]
    parallel_execution_queue := [ParallelBucket.empty.add_system sysE1]
    init_queue := [] }

/-- Case analysis of the bucket-placement scan: either no bucket was
compatible and a fresh one was appended at the end, or the system was added to
the first compatible bucket. -/
theorem placeSystem_spec (bs : List ParallelBucket) (s : FunctionSystem) :
    ((placeSystem bs s).2 = bs.length ∧
      (placeSystem bs s).1 = bs ++ [ParallelBucket.empty.add_system s]) ∨
    (∃ b, bs[(placeSystem bs s).2]? = some b ∧ b.is_system_compatible s = true ∧
      (placeSystem bs s).1 = bs.set (placeSystem bs s).2 (b.add_system s)) := by
  induction bs with
  | nil => exact Or.inl ⟨rfl, rfl⟩
  | cons b bs ih =>
    by_cases h : b.is_system_compatible s
    · exact Or.inr ⟨b, by simp [placeSystem, h], h, by simp [placeSystem, h]⟩
    · rcases ih with ⟨h1, h2⟩ | ⟨b2, h1, h2, h3⟩
      · exact Or.inl ⟨by simp [placeSystem, h, h1], by simp [placeSystem, h, h2]⟩
      · exact Or.inr ⟨b2, by simpa [placeSystem, h] using h1, h2,
          by simp [placeSystem, h, h3]⟩

/-- C2: two systems that both claim mutable access to resource 0 (and touch no
components) pass validation, are placed into the SAME parallel bucket, and yet
their materialized resource accesses are incompatible.  This happens because
`FunctionSystem::resource_access` returns the component access, so the
bucketing rule never inspects the real resource claims. -/
theorem c2_resource_conflict_same_bucket :
    (Schedule.run_init { Schedule.empty with init_queue := [sysRM1, sysRM2] }).map
        (fun sch => sch.parallel_execution_queue.map (fun b => b.systems.map FunctionSystem.sysid))
      = some [[2, 1]] ∧
    Access.is_compatible sysRM1.resource_access sysRM2.resource_access = false := by
  decide

/-- C8: a system whose resource access overlaps (immutable bit 0 and mutable
bit 0) and whose mutable counter (5) disagrees with the popcount of its
mutable bitmap (1) nevertheless PASSES `FunctionSystem::validate`, because the
`resource_access()` getter returns the (empty, valid) component access. -/
theorem c8_resource_validation_bypassed :
    FunctionSystem.validate sysBadRes = true ∧
    sysBadRes.resource_access.immutable &&& sysBadRes.resource_access.mutable ≠ 0 ∧
    sysBadRes.resource_access.mutable_count ≠ popCount sysBadRes.resource_access.mutable := by
  decide

/-- C5 counterexample: systems added in the order `sysE1, sysE2` (fully
compatible, so they share bucket 0) come out of initialization in the bucket
as `[sysE2, sysE1]`, not in insertion order `[sysE1, sysE2]`: the init queue
is drained by `Vec::pop`, i.e. LIFO. -/
theorem c5_insertion_order_counterexample :
    (Schedule.run_init { Schedule.empty with init_queue := [sysE1, sysE2] }).map
        (fun sch => sch.parallel_execution_queue.map (fun b => b.systems.map FunctionSystem.sysid))
      = some [[2, 1]] ∧
    ([[2, 1]] : List (List Nat)) ≠ [[1, 2]] := by
  decide

/-- C5 amended: (i) the pending system added LAST is initialized FIRST (the
init queue is drained in reverse insertion order), and (ii) each initialized
system is recorded with the index of the bucket chosen by the first-compatible
scan and is appended at the END of that bucket, so within a bucket systems
appear in initialization order (the reverse of the order in which they were
added in the same batch). -/
theorem c5_init_order_amended :
    (∀ sch s, (Schedule.add_system sch s).run_init
        = initLoop { sch with init_queue := [] } (s :: sch.init_queue.reverse)) ∧
    (∀ sch s sch2, Schedule.init_system sch s = some sch2 →
      sch2.system_records
          = sch.system_records ++ [(s, (placeSystem sch.parallel_execution_queue s).2)] ∧
      sch2.parallel_execution_queue = (placeSystem sch.parallel_execution_queue s).1) ∧
    (∀ b s, (ParallelBucket.add_system b s).systems = b.systems ++ [s]) := by
  refine ⟨?_, ?_, ?_⟩
  · intro sch s
    simp [Schedule.add_system, Schedule.run_init]
  · intro sch s sch2 h
    by_cases hv : s.validate
    · simp only [Schedule.init_system, hv, if_pos] at h
      obtain rfl := Option.some.inj h
      exact ⟨rfl, rfl⟩
    · simp [Schedule.init_system, hv] at h
  · intro b s
    rfl

/-- Witness for the amended C5 statement: instantiates part (ii) on
initializing `sysE1` into the empty schedule. -/
theorem c5_init_order_amended_witness :
    c5SchResult.system_records
        = Schedule.empty.system_records
            ++ [(sysE1, (placeSystem Schedule.empty.parallel_execution_queue sysE1).2)] :=
  (c5_init_order_amended.2.1 Schedule.empty sysE1 c5SchResult (by decide)).1

/-- Lookup in an association list; the embedding of `HashMap` keyed by
`TypeId` or by a `Signature` (keys are `Nat` stand-ins; none of the proved
statements depends on hash iteration order). -/
def alistLookup (l : List (Nat × β)) (k : Nat) : Option β :=
  match l with
  | [] => none
  | (k2, v) :: rest => if k2 = k then some v else alistLookup rest k

/-- In-place update of an existing association-list entry (`HashMap::get_mut`
followed by a write); absent keys are untouched. -/
def alistUpdate (l : List (Nat × β)) (k : Nat) (v : β) : List (Nat × β) :=
  match l with
  | [] => []
  | (k2, v2) :: rest => if k2 = k then (k2, v) :: rest else (k2, v2) :: alistUpdate rest k v

/-- `HashMap::entry(k).or_default()` followed by an in-place mutation. -/
def alistEntryOrDefaultModify (l : List (Nat × β)) (k : Nat) (d : β) (f : β → β) :
    List (Nat × β) :=
  match l with
  | [] => [(k, f d)]
  | (k2, v2) :: rest =>
    if k2 = k then (k2, f v2) :: rest
    else (k2, v2) :: alistEntryOrDefaultModify rest k d f

/-- `MAX_COMPONENTS` (`component.rs` line 12): the bitmap width. -/
def MAX_COMPONENTS : Nat := 128

/-- `ComponentRecord` (`component.rs` lines 29-32). -/
structure ComponentRecord where
  signature : Nat
  id : Nat
deriving DecidableEq

/-- `Components` (`component.rs` lines 34-42): the per-world component
registry.  Component types are identified by `Nat` keys standing for
`TypeId`s; the per-type `BlobSparseSet`s all hold the payload type `V` (the
claims below are per fixed component type, and the type-erased byte storage
adds nothing observable once layouts agree). -/
structure Components (V : Type) where
  component_records : List (Nat × ComponentRecord)
  components : List (SparseSet V)
  groups : List (Nat × SparseSet Entity)
  entity_signatures : SparseSet Nat
  component_len : Nat
deriving DecidableEq

/-- `Components::default`. -/
def Components.emptyC : Components V :=
  { component_records := [], components := [], groups := [],
    entity_signatures := SparseSet.empty, component_len := 0 }

/-- `Components::register_component` (`component.rs` lines 46-67): return the
existing id, or allocate the next one (the `with_set` assert aborts past the
bitmap width). -/
def Components.register_component (cs : Components V) (key : Nat) :
    Option (Components V × Nat) :=
  match alistLookup cs.component_records key with
  | some r => some (cs, r.id)
  | none =>
    if MAX_COMPONENTS ≤ cs.component_len then none
    else
      some
        ({ component_records := cs.component_records ++
            [(key, { signature := bitmapWithSet 0 cs.component_len, id := cs.component_len })]
           components := cs.components ++ [SparseSet.empty]
           groups := cs.groups
           entity_signatures := cs.entity_signatures
           component_len := cs.component_len + 1 }, cs.component_len)

/-- `Components::insert_empty_entity` (`component.rs` lines 133-137): record
the signature (a duplicate id is an assert, i.e. `none`) and add the entity to
its signature group. -/
def Components.insert_empty_entity (cs : Components V) (e : Entity) (signature : Nat) :
    Option (Components V) :=
  let ins := cs.entity_signatures.insert e.id signature
  if ins.1.isSome then none
  else
    some { cs with
            entity_signatures := ins.2
            groups := alistEntryOrDefaultModify cs.groups signature SparseSet.empty
              (fun g => (g.insert e.id e).2) }

/-- `Components::set_component` (`component.rs` lines 82-110): register the
type on the fly if needed, then move the entity between groups when the
component bit is new, then insert into the per-type storage, returning any
displaced prior value.  `expect` failures and the overflow asserts are
`none`. -/
def Components.set_component (cs : Components V) (key : Nat) (e : Entity) (component : V) :
    Option (Components V × Option V) :=
  let components_num := cs.component_records.length
  let reg : Option (List (Nat × ComponentRecord) × List (SparseSet V) × Nat × ComponentRecord) :=
    match alistLookup cs.component_records key with
    | some r => some (cs.component_records, cs.components, cs.component_len, r)
    | none =>
      if MAX_COMPONENTS < cs.component_len + 1 ∨ MAX_COMPONENTS ≤ components_num then none
      else
        some (cs.component_records ++
            [(key, { signature := bitmapWithSet 0 components_num, id := components_num })],
          cs.components ++ [SparseSet.empty], cs.component_len + 1,
          ({ signature := bitmapWithSet 0 components_num, id := components_num } :
            ComponentRecord))
  match reg with
  | none => none
  | some (records2, comps2, len2, r) =>
    match cs.entity_signatures.get e.id with
    | none => none
    | some entity_signature =>
      match comps2[r.id]? with
      | none => none
      | some sset =>
        if entity_signature &&& r.signature == 0 then
          match alistLookup cs.groups entity_signature with
          | none => none
          | some group =>
            let groups2 := alistUpdate cs.groups entity_signature (group.remove e.id).2
            let sig2 := entity_signature ||| r.signature
            let sigs2 := cs.entity_signatures.modifyAt e.id (fun s2 => s2 ||| r.signature)
            let groups3 := alistEntryOrDefaultModify groups2 sig2 SparseSet.empty
              (fun g => (g.insert e.id e).2)
            let ins := sset.insert e.id component
            some ({ component_records := records2, components := comps2.set r.id ins.2,
                    groups := groups3, entity_signatures := sigs2,
                    component_len := len2 }, ins.1)
        else
          let ins := sset.insert e.id component
          some ({ component_records := records2, components := comps2.set r.id ins.2,
                  groups := cs.groups, entity_signatures := cs.entity_signatures,
                  component_len := len2 }, ins.1)

/-- `Components::remove_component` (`component.rs` lines 113-131).  Note line
126 of the source: the component bit is OR-ed back into the signature
(`bitor_assign`) instead of being cleared. -/
def Components.remove_component (cs : Components V) (key : Nat) (e : Entity) :
    Option (Components V × Option V) :=
  match alistLookup cs.component_records key with
  | none => some (cs, none)
  | some r =>
    match cs.entity_signatures.get e.id with
    | none => some (cs, none)
    | some entity_signature =>
      match cs.components[r.id]? with
      | none => none
      | some sset =>
        if entity_signature &&& r.signature == 0 then some (cs, none)
        else
          match alistLookup cs.groups entity_signature with
          | none => none
          | some group =>
            let groups2 := alistUpdate cs.groups entity_signature (group.remove e.id).2
            let sig2 := entity_signature ||| r.signature
            let sigs2 := cs.entity_signatures.modifyAt e.id (fun s2 => s2 ||| r.signature)
            let groups3 := alistEntryOrDefaultModify groups2 sig2 SparseSet.empty
              (fun g => (g.insert e.id e).2)
            let rem := sset.remove e.id
            match rem.1 with
            | none => none
            | some v =>
              some ({ cs with
                  groups := groups3
                  entity_signatures := sigs2
                  components := cs.components.set r.id rem.2 }, some v)

/-- `Components::get_component` via `get_component_by_id` (`component.rs`
lines 70-73 and 178-181). -/
def Components.get_component (cs : Components V) (key : Nat) (e : Entity) : Option V :=
  match alistLookup cs.component_records key with
  | none => none
  | some r =>
    match cs.components[r.id]? with
    | none => none
    | some sset => sset.get e.id

/-- The bit loop of `Components::despawn` (`component.rs` lines 153-163): walk
the set bits of the signature, removing the entity from each per-type storage
(a missing entry is an `expect` panic).  The fuel only makes the recursion on
the shifted signature structural; the caller passes the signature itself,
which always suffices. -/
def despawnLoopGo : Nat → List (SparseSet V) → Nat → Nat → Nat → Option (List (SparseSet V))
  | _, comps, _, 0, _ => some comps
  | 0, _, _, _ + 1, _ => none
  | fuel + 1, comps, eid, sig + 1, index =>
    let step :=
      if (sig + 1) % 2 == 1 then
        match comps[index]? with
        | none => none
        | some sset =>
          match sset.get eid with
          | none => none
          | some _ => some (comps.set index (sset.remove eid).2)
      else some comps
    match step with
    | none => none
    | some comps2 => despawnLoopGo fuel comps2 eid ((sig + 1) / 2) (index + 1)

/-- `Components::despawn` (`component.rs` lines 148-163): drop the signature
entry (absent means plain return), leave the group, then clear every per-type
storage named by the signature. -/
def Components.despawn (cs : Components V) (e : Entity) : Option (Components V) :=
  let rem := cs.entity_signatures.remove e.id
  match rem.1 with
  | none => some cs
  | some entity_signature =>
    match alistLookup cs.groups entity_signature with
    | none => none
    | some group =>
      let groups2 := alistUpdate cs.groups entity_signature (group.remove e.id).2
      match despawnLoopGo entity_signature cs.components e.id entity_signature 0 with
      | none => none
      | some comps2 =>
        some { cs with entity_signatures := rem.2, groups := groups2, components := comps2 }

/-- `Resources` (`resource.rs` lines 21-25): the type-to-id registry plus the
id-keyed storage, holding payloads of type `V`. -/
structure Resources (V : Type) where
  ids : List (Nat × Nat)
  sparse_set : SparseSet V
deriving DecidableEq

/-- `Resources::default`. -/
def Resources.emptyR : Resources V := { ids := [], sparse_set := SparseSet.empty }

/-- `Resources::register` (`resource.rs` lines 55-67). -/
def Resources.register (rs : Resources V) (key : Nat) : Resources V × Nat :=
  match alistLookup rs.ids key with
  | some id => (rs, id)
  | none => ({ rs with ids := rs.ids ++ [(key, rs.ids.length)] }, rs.ids.length)

/-- `Resources::insert` (`resource.rs` lines 69-72): register then insert,
returning any displaced prior value. -/
def Resources.insertR (rs : Resources V) (key : Nat) (v : V) : Option V × Resources V :=
  let r := rs.register key
  let ins := r.1.sparse_set.insert r.2 v
  (ins.1, { r.1 with sparse_set := ins.2 })

/-- `Resources::remove` (`resource.rs` lines 74-77). -/
def Resources.removeR (rs : Resources V) (key : Nat) : Option V × Resources V :=
  match alistLookup rs.ids key with
  | none => (none, rs)
  | some id =>
    let rem := rs.sparse_set.remove id
    (rem.1, { rs with sparse_set := rem.2 })

/-- `Resources::remove_by_id` (used by `World::remove_resource_by_id`,
`world.rs` lines 123-128). -/
def Resources.remove_by_id (rs : Resources V) (id : Nat) : Option V × Resources V :=
  let rem := rs.sparse_set.remove id
  (rem.1, { rs with sparse_set := rem.2 })

/-- The deferred commands (`CommandMeta`, `system/commands.rs` lines 10-71)
whose replay dispatches to plain `World` mutators.  The modelled subset is the
structural-mutation commands; the schedule/observer/event commands route into
subsystems outside the scope of the proved claims. -/
inductive Cmd (V : Type) where
  | despawn (e : Entity)
  | set_component (key : Nat) (e : Entity) (value : V)
  | remove_component (key : Nat) (e : Entity)
  | insert_resource (key : Nat) (value : V)
  | remove_resource (key : Nat)
  | remove_resource_by_id (id : Nat)
  | add_child (parent child : Entity)
  | remove_child (parent child : Entity)
  | remove_children (e : Entity)
deriving DecidableEq

/-- `Entities` (`entity.rs` lines 37-44): free-id list, version vector, the
lock-free reservation counters (sequentialized, since no claim of this
development touches intra-bucket parallelism), and the parent-to-children
index. -/
structure Entities where
  free_entity_ids : List Nat
  entity_versions : List Nat
  claimed_free_entities : Nat
  highest_free_entity_id : Nat
  children : SparseSet (List Entity)
deriving DecidableEq

/-- `Entities::default`. -/
def Entities.empty : Entities :=
  { free_entity_ids := [], entity_versions := [], claimed_free_entities := 0
    highest_free_entity_id := 0, children := SparseSet.empty }

/-- `Entities::is_alive` (`entity.rs` lines 95-98): ids beyond the version
vector are reported alive; otherwise the stored version must match. -/
def Entities.is_alive (es : Entities) (e : Entity) : Bool :=
  match es.entity_versions[e.id]? with
  | none => true
  | some v => e.version == v

/-- `Entities::add_child` (`entity.rs` lines 101-107): `assert_ne!(parent,
child)` is a panic (`none`); otherwise push the child into the parent's list
unless already present. -/
def Entities.add_child (es : Entities) (parent child : Entity) : Option Entities :=
  if parent = child then none
  else
    some { es with
            children := es.children.entryOrDefaultModify parent.id []
              (fun l => if child ∈ l then l else l ++ [child]) }

/-- `Entities::remove_child` (`entity.rs` lines 109-114): swap-remove the
first occurrence, if any (note `entry(..).or_default()` materializes an empty
list for an absent parent). -/
def Entities.remove_child (es : Entities) (parent child : Entity) : Entities :=
  { es with
    children := es.children.entryOrDefaultModify parent.id []
      (fun l =>
        match l.findIdx? (fun p => child == p) with
        | some index => vecSwapRemove l index
        | none => l) }

/-- `Entities::remove_children` (`entity.rs` lines 116-118). -/
def Entities.remove_children (es : Entities) (parent : Entity) : Entities :=
  { es with children := (es.children.remove parent.id).2 }

/-- `Entities::children` (`entity.rs` lines 120-126). -/
def Entities.childrenOf (es : Entities) (e : Entity) : List Entity :=
  (es.children.get e.id).getD []

/-- `World` (`world.rs` lines 10-19) restricted to the state the proved
claims observe: components, entities, resources and the command buffer
(schedules, observers and the thread pool route around this state). -/
structure World (V : Type) where
  components : Components V
  entities : Entities
  resources : Resources V
  command_buffer : List (Cmd V)
deriving DecidableEq

/-- `World::is_alive` (`world.rs` lines 376-379). -/
def World.is_alive (w : World V) (e : Entity) : Bool :=
  w.entities.is_alive e


/-- `Entities::despawn` (`entity.rs` lines 59-76): settle the claimed
free-list reservations, push the freed id, bump the stored version (the `u16`
increment panics on overflow in the debug profile, modelled as `none`), and
queue a despawn command for each child of the freed id. -/
def Entities.despawn (es : Entities) (e : Entity) (buffer : List (Cmd V)) :
    Option (Entities × List (Cmd V)) :=
  let n := min es.claimed_free_entities es.free_entity_ids.length
  let free2 := (es.free_entity_ids.take (es.free_entity_ids.length - n)) ++ [e.id]
  let versions :=
    if es.entity_versions.length ≤ e.id
    then es.entity_versions ++ List.replicate (e.id + 1 - es.entity_versions.length) 0
    else es.entity_versions
  let v := (versions[e.id]?).getD 0
  if 65535 < v + 1 then none
  else
    let versions2 := versions.set e.id (v + 1)
    let rem := es.children.remove e.id
    let cmds :=
      match rem.1 with
      | some lst => buffer ++ lst.map Cmd.despawn
      | none => buffer
    some
      ({ free_entity_ids := free2
         entity_versions := versions2
         claimed_free_entities := 0
         highest_free_entity_id := es.highest_free_entity_id
         children := rem.2 }, cmds)

/-- `World::add_child` (`world.rs` lines 381-384): dead endpoints make it a
no-op; the self-parent assert is a panic. -/
def World.add_child (w : World V) (parent child : Entity) : Option (World V) :=
  if w.entities.is_alive parent && w.entities.is_alive child then
    (w.entities.add_child parent child).map (fun es => { w with entities := es })
  else some w

/-- `World::remove_child` (`world.rs` lines 386-389). -/
def World.remove_child (w : World V) (parent child : Entity) : World V :=
  if w.entities.is_alive parent then
    { w with entities := w.entities.remove_child parent child }
  else w

/-- `World::remove_children` (`world.rs` lines 391-394). -/
def World.remove_children (w : World V) (e : Entity) : World V :=
  if w.entities.is_alive e then { w with entities := w.entities.remove_children e } else w

mutual

/-- `World::despawn` (`world.rs` lines 368-374): if alive, free the id
(queuing child despawns) and clear the component state, then drain the
command buffer either way.  The fuel bounds the drain recursion; every
statement proved below is conditioned on (or instantiated with) enough
fuel. -/
def World.despawnF : Nat → World V → Entity → Option (World V)
  | 0, _, _ => none
  | fuel + 1, w, e =>
    if w.entities.is_alive e then
      match w.entities.despawn e w.command_buffer with
      | none => none
      | some (es2, buf2) =>
        match Components.despawn w.components e with
        | none => none
        | some cs2 =>
          World.processBufferF fuel
            { components := cs2, entities := es2, resources := w.resources
              command_buffer := buf2 }
    else World.processBufferF fuel w

/-- `World::process_command_buffer` (`world.rs` lines 489-494): swap the
buffer out, then replay it. -/
def World.processBufferF : Nat → World V → Option (World V)
  | 0, _ => none
  | fuel + 1, w => World.processListF fuel { w with command_buffer := [] } w.command_buffer

/-- `Commands::process` (`system/commands.rs` lines 330-402): walk the queue
front-to-back, dispatching each command to the corresponding `World`
mutator. -/
def World.processListF : Nat → World V → List (Cmd V) → Option (World V)
  | _, w, [] => some w
  | 0, _, _ :: _ => none
  | fuel + 1, w, c :: rest =>
    match World.applyCmdF fuel w c with
    | none => none
    | some w2 => World.processListF fuel w2 rest

/-- The dispatch table of `Commands::process`: each command invokes the
`World` mutator of the same name. -/
def World.applyCmdF : Nat → World V → Cmd V → Option (World V)
  | 0, _, _ => none
  | fuel + 1, w, c =>
    match c with
    | .despawn e => World.despawnF fuel w e
    | .set_component key e v => World.setComponentF fuel w key e v
    | .remove_component key e => World.removeComponentF fuel w key e
    | .insert_resource key v => World.insertResourceF fuel w key v
    | .remove_resource key => World.removeResourceF fuel w key
    | .remove_resource_by_id id => World.removeResourceByIdF fuel w id
    | .add_child p c2 => World.add_child w p c2
    | .remove_child p c2 => some (World.remove_child w p c2)
    | .remove_children e => some (World.remove_children w e)

/-- `World::set_component` (`world.rs` lines 244-252): dead entities are a
silent no-op (no drain); otherwise the registry insert runs (its displaced
prior value is dropped after its hook is queued — the hooks here are the
trait defaults, i.e. no-ops) and the buffer is drained. -/
def World.setComponentF : Nat → World V → Nat → Entity → V → Option (World V)
  | 0, _, _, _, _ => none
  | fuel + 1, w, key, e, v =>
    if w.entities.is_alive e then
      match Components.set_component w.components key e v with
      | none => none
      | some (cs2, _) => World.processBufferF fuel { w with components := cs2 }
    else some w

/-- `World::remove_component` (`world.rs` lines 266-272). -/
def World.removeComponentF : Nat → World V → Nat → Entity → Option (World V)
  | 0, _, _, _ => none
  | fuel + 1, w, key, e =>
    if w.entities.is_alive e then
      match Components.remove_component w.components key e with
      | none => none
      | some (cs2, _) => World.processBufferF fuel { w with components := cs2 }
    else some w

/-- `World::insert_resource` (`world.rs` lines 98-111); hooks are the trait
defaults, both branches drain the buffer. -/
def World.insertResourceF : Nat → World V → Nat → V → Option (World V)
  | 0, _, _, _ => none
  | fuel + 1, w, key, v =>
    World.processBufferF fuel { w with resources := (w.resources.insertR key v).2 }

/-- `World::remove_resource` (`world.rs` lines 114-121): only a successful
removal drains the buffer. -/
def World.removeResourceF : Nat → World V → Nat → Option (World V)
  | 0, _, _ => none
  | fuel + 1, w, key =>
    match (w.resources.removeR key).1 with
    | some _ => World.processBufferF fuel { w with resources := (w.resources.removeR key).2 }
    | none => some w

/-- `World::remove_resource_by_id` (`world.rs` lines 123-128). -/
def World.removeResourceByIdF : Nat → World V → Nat → Option (World V)
  | 0, _, _ => none
  | fuel + 1, w, id =>
    World.processBufferF fuel { w with resources := (w.resources.remove_by_id id).2 }

end

/-- Registration of component key 7 into a fresh registry (id 0, bit 0). -/
def c1reg : Option (Components Nat × Nat) :=
  Components.register_component Components.emptyC 7

/-- The registry after registration. -/
def c1cs1 : Components Nat := (c1reg.getD (Components.emptyC, 0)).1

/-- Entity `(0, 0)` inserted with the empty signature. -/
def c1cs2 : Components Nat :=
  (Components.insert_empty_entity c1cs1 ⟨0, 0⟩ 0).getD Components.emptyC

/-- Setting component 7 (payload 42) on the entity. -/
def c1set : Option (Components Nat × Option Nat) :=
  Components.set_component c1cs2 7 ⟨0, 0⟩ 42

/-- The registry with the component present. -/
def c1cs3 : Components Nat := (c1set.getD (Components.emptyC, none)).1

/-- Removing component 7 from the entity. -/
def c1rem : Option (Components Nat × Option Nat) :=
  Components.remove_component c1cs3 7 ⟨0, 0⟩

/-- The registry after the removal. -/
def c1cs4 : Components Nat := (c1rem.getD (Components.emptyC, none)).1

/-- C1: `remove_component` does NOT clear the component's bit.  After setting
component 7 (bit 0) on entity `(0, 0)` and then removing it, the removal
returns the value but the entity's signature still has bit 0 set (it equals 1,
because `component.rs` line 126 ORs the bit back in instead of clearing it)
while the per-type storage no longer contains the entity — refuting the
claimed "contains `e` iff the bit is set".  Consistently with the bug being a
slip, a second `remove_component` then panics on the source's own
`expect("component manager remove_component id missing")`, and `despawn`
panics on `expect("component manager despawn id missing")` (both `none`
here). -/
theorem c1_remove_component_leaves_bit_set :
    c1reg.isSome = true ∧ (Components.insert_empty_entity c1cs1 ⟨0, 0⟩ 0).isSome = true ∧
    c1set.isSome = true ∧
    Components.get_component c1cs3 7 ⟨0, 0⟩ = some 42 ∧
    c1cs3.entity_signatures.get 0 = some 1 ∧
    c1rem = some (c1cs4, some 42) ∧
    c1cs4.entity_signatures.get 0 = some 1 ∧
    Components.get_component c1cs4 7 ⟨0, 0⟩ = none ∧
    Components.remove_component c1cs4 7 ⟨0, 0⟩ = none ∧
    Components.despawn c1cs4 ⟨0, 0⟩ = none := by
  decide

/-- Repeated `World::add_child` with the same pair, `n` times. -/
def iterateAddChildF : Nat → World V → Entity → Entity → Option (World V)
  | 0, w, _, _ => some w
  | n + 1, w, p, c => (World.add_child w p c).bind (fun w2 => iterateAddChildF n w2 p c)

/-- Number of occurrences of `child` in `parent`'s children list. -/
def World.countChild (w : World V) (parent child : Entity) : Nat :=
  (w.entities.childrenOf parent).count child

/-- Liveness only reads the version vector. -/
theorem Entities.is_alive_congr {es1 es2 : Entities} (e : Entity)
    (h : es1.entity_versions = es2.entity_versions) : es1.is_alive e = es2.is_alive e := by
  unfold Entities.is_alive
  rw [h]

/-- Closed form of `World::add_child` on live, distinct endpoints. -/
theorem World.add_child_eq {w : World V} {p c : Entity} (hp : w.entities.is_alive p = true)
    (hc : w.entities.is_alive c = true) (hpc : p ≠ c) :
    World.add_child w p c = some { w with entities := { w.entities with
        children := w.entities.children.entryOrDefaultModify p.id []
          (fun l => if c ∈ l then l else l ++ [c]) } } := by
  simp [World.add_child, Entities.add_child, hp, hc, hpc]

/-- Invariant carried along the `add_child` iteration: the children index
stays coherent, the parent's list stays duplicate-free, after at least one
round the child is in the list, and the version vector never moves. -/
theorem c10_iterate_spec {V : Type} {w : World V} {p c : Entity} {n : Nat} {wn : World V}
    (hpc : p ≠ c) (hp : w.entities.is_alive p = true) (hc : w.entities.is_alive c = true)
    (hwf : w.entities.children.WF) (hnd : (w.entities.childrenOf p).Nodup)
    (hit : iterateAddChildF (n + 1) w p c = some wn) :
    wn.entities.children.WF ∧ (wn.entities.childrenOf p).Nodup ∧
    c ∈ wn.entities.childrenOf p ∧
    wn.entities.entity_versions = w.entities.entity_versions := by
  induction n generalizing w with
  | zero =>
    rw [iterateAddChildF, World.add_child_eq hp hc hpc] at hit
    simp only [Option.some_bind] at hit
    rw [iterateAddChildF] at hit
    have hl2 : (({ w with entities := { w.entities with
          children := w.entities.children.entryOrDefaultModify p.id []
            (fun l => if c ∈ l then l else l ++ [c]) } } : World V)).entities.childrenOf p
        = (if c ∈ w.entities.childrenOf p then w.entities.childrenOf p
           else w.entities.childrenOf p ++ [c]) := by
      show ((w.entities.children.entryOrDefaultModify p.id []
          (fun l => if c ∈ l then l else l ++ [c])).get p.id).getD [] = _
      rw [SparseSet.get_eodm_self hwf]
      rfl
    have hwf2 := SparseSet.wf_eodm hwf p.id ([] : List Entity)
      (fun l => if c ∈ l then l else l ++ [c])
    obtain rfl := Option.some.inj hit
    refine ⟨hwf2, ?_, ?_, rfl⟩
    · rw [hl2]
      by_cases hmem : c ∈ w.entities.childrenOf p
      · rw [if_pos hmem]
        exact hnd
      · rw [if_neg hmem]
        rw [List.nodup_append]
        refine ⟨hnd, List.nodup_singleton c, ?_⟩
        intro a ha hac
        simp only [List.mem_singleton] at hac
        subst hac
        exact hmem ha
    · rw [hl2]
      by_cases hmem : c ∈ w.entities.childrenOf p
      · rw [if_pos hmem]
        exact hmem
      · rw [if_neg hmem]
        simp
  | succ m ih =>
    rw [iterateAddChildF, World.add_child_eq hp hc hpc] at hit
    simp only [Option.some_bind] at hit
    have hl2 : (({ w with entities := { w.entities with
          children := w.entities.children.entryOrDefaultModify p.id []
            (fun l => if c ∈ l then l else l ++ [c]) } } : World V)).entities.childrenOf p
        = (if c ∈ w.entities.childrenOf p then w.entities.childrenOf p
           else w.entities.childrenOf p ++ [c]) := by
      show ((w.entities.children.entryOrDefaultModify p.id []
          (fun l => if c ∈ l then l else l ++ [c])).get p.id).getD [] = _
      rw [SparseSet.get_eodm_self hwf]
      rfl
    have hwf2 := SparseSet.wf_eodm hwf p.id ([] : List Entity)
      (fun l => if c ∈ l then l else l ++ [c])
    have h3 := ih ?_ ?_ ?_ ?_ hit
    · exact ⟨h3.1, h3.2.1, h3.2.2.1, h3.2.2.2⟩
    · exact hp
    · exact hc
    · exact hwf2
    · rw [hl2]
      by_cases hmem : c ∈ w.entities.childrenOf p
      · rw [if_pos hmem]
        exact hnd
      · rw [if_neg hmem]
        rw [List.nodup_append]
        refine ⟨hnd, List.nodup_singleton c, ?_⟩
        intro a ha hac
        simp only [List.mem_singleton] at hac
        subst hac
        exact hmem ha

/-- Swap-removing the unique occurrence of an element from a duplicate-free
list eliminates it. -/
theorem count_vecSwapRemove [DecidableEq A] {l : List A} {a : A} {i : Nat} (hnd : l.Nodup)
    (hilt : i < l.length) (hia : l[i] = a) : (vecSwapRemove l i).count a = 0 := by
  have hswlen : (listSwap l i (l.length - 1)).length = l.length := listSwap_length _ _ _
  rw [List.count_eq_zero]
  intro hmem
  obtain ⟨k, hk, hke⟩ := List.getElem_of_mem hmem
  have hk2 : k < l.length - 1 := by
    have h7 := hk
    rw [show vecSwapRemove l i = (listSwap l i (l.length - 1)).dropLast from rfl,
      List.length_dropLast, hswlen] at h7
    exact h7
  have hke2 : (listSwap l i (l.length - 1)).dropLast[k]? = some a := by
    rw [show (listSwap l i (l.length - 1)).dropLast = vecSwapRemove l i from rfl,
      List.getElem?_eq_getElem hk, hke]
  rw [List.getElem?_dropLast, if_pos (by rw [hswlen]; omega)] at hke2
  rw [listSwap_getElem? l k hilt (by omega)] at hke2
  by_cases hki : k = i
  · rw [if_pos hki] at hke2
    rw [List.getElem?_eq_getElem (show l.length - 1 < l.length by omega)] at hke2
    have hlast : l[l.length - 1] = a := Option.some.inj hke2
    have h6 : l.length - 1 = i := by
      rw [← hia] at hlast
      exact (List.Nodup.getElem_inj_iff hnd).mp hlast
    omega
  · rw [if_neg hki, if_neg (by omega)] at hke2
    rw [List.getElem?_eq_getElem (show k < l.length by omega)] at hke2
    have hkc : l[k] = a := Option.some.inj hke2
    have h6 : k = i := by
      rw [← hia] at hkc
      exact (List.Nodup.getElem_inj_iff hnd).mp hkc
    exact hki h6

/-- C10: for distinct live parent and child in a world whose children index is
coherent and whose parent list has no duplicate (both hold in every reachable
world), any positive number of `add_child(parent, child)` calls leaves the
parent's children list containing the child exactly once, and a subsequent
`remove_child` leaves it without the child. -/
theorem c10_add_child_idempotent {V : Type} {w : World V} {p c : Entity} {n : Nat}
    {wn : World V} (hpc : p ≠ c) (hp : w.entities.is_alive p = true)
    (hc : w.entities.is_alive c = true) (hwf : w.entities.children.WF)
    (hnd : (w.entities.childrenOf p).Nodup) (hn : 1 ≤ n)
    (hit : iterateAddChildF n w p c = some wn) :
    World.countChild wn p c = 1 ∧
    World.countChild (World.remove_child wn p c) p c = 0 := by
  obtain ⟨m, rfl⟩ : ∃ m, n = m + 1 := ⟨n - 1, by omega⟩
  obtain ⟨hwf2, hnd2, hmem2, hver⟩ := c10_iterate_spec hpc hp hc hwf hnd hit
  have halive : wn.entities.is_alive p = true := by
    rw [Entities.is_alive_congr p hver]
    exact hp
  refine ⟨List.count_eq_one_of_mem hnd2 hmem2, ?_⟩
  unfold World.countChild World.remove_child Entities.remove_child
  rw [halive]
  simp only [if_pos]
  show (((wn.entities.children.entryOrDefaultModify p.id []
      (fun l => match l.findIdx? (fun p2 => c == p2) with
        | some index => vecSwapRemove l index
        | none => l)).get p.id).getD []).count c = 0
  rw [SparseSet.get_eodm_self hwf2]
  simp only [Option.getD_some]
  show (match (wn.entities.childrenOf p).findIdx? (fun p2 => c == p2) with
    | some index => vecSwapRemove (wn.entities.childrenOf p) index
    | none => wn.entities.childrenOf p).count c = 0
  cases hf : (wn.entities.childrenOf p).findIdx? (fun p2 => c == p2) with
  | none =>
    rw [List.findIdx?_eq_none_iff] at hf
    have h8 := hf c hmem2
    simp at h8
  | some i =>
    obtain ⟨hilt, hpi, h5⟩ := List.findIdx?_eq_some_iff_getElem.mp hf
    have hic : (wn.entities.childrenOf p)[i] = c := by
      have h4 := hpi
      simp only [beq_iff_eq] at h4
      exact h4.symm
    show (vecSwapRemove (wn.entities.childrenOf p) i).count c = 0
    exact count_vecSwapRemove hnd2 hilt hic

/-- A minimal world for exercising the `add_child` laws: fresh state, so both
entities are reported alive and the children index is empty (hence
well-formed) with a duplicate-free (empty) children list. -/
def c10w : World Nat :=
  { components := Components.emptyC, entities := Entities.empty
    resources := Resources.emptyR, command_buffer := [] }

/-- The world after two `add_child(parent, child)` calls on `c10w`. -/
def c10wn : World Nat := (iterateAddChildF 2 c10w ⟨0, 0⟩ ⟨1, 0⟩).getD c10w

/-- Concrete instance of the `add_child` idempotence law: two `add_child`
calls leave one copy of the child, and `remove_child` then leaves none. -/
theorem c10_add_child_idempotent_witness :
    iterateAddChildF 2 c10w ⟨0, 0⟩ ⟨1, 0⟩ = some c10wn ∧
    World.countChild c10wn ⟨0, 0⟩ ⟨1, 0⟩ = 1 ∧
    World.countChild (World.remove_child c10wn ⟨0, 0⟩ ⟨1, 0⟩) ⟨0, 0⟩ ⟨1, 0⟩ = 0 := by
  refine ⟨by decide, ?_, ?_⟩
  · exact (@c10_add_child_idempotent Nat c10w ⟨0, 0⟩ ⟨1, 0⟩ 2 c10wn (by decide) (by decide)
      (by decide) ((SparseSet.wf_iff _).mp (by decide)) (by decide) (by decide) (by decide)).1
  · exact (@c10_add_child_idempotent Nat c10w ⟨0, 0⟩ ⟨1, 0⟩ 2 c10wn (by decide) (by decide)
      (by decide) ((SparseSet.wf_iff _).mp (by decide)) (by decide) (by decide) (by decide)).2

/-- A registry holding component 7 with payload `a` on entity `(0, 0)`
(register, insert the empty entity, set the component). -/
def c7cs (a : Nat) : Components Nat :=
  ((Components.set_component
      ((Components.insert_empty_entity
          ((Components.register_component Components.emptyC 7).getD (Components.emptyC, 0)).1
          ⟨0, 0⟩ 0).getD Components.emptyC)
      7 ⟨0, 0⟩ a).getD (Components.emptyC, none)).1

/-- A world where entity `(0, 0)` is alive and carries component 7 with
payload `a`. -/
def c7w (a : Nat) : World Nat :=
  { components := c7cs a
    entities := { Entities.empty with entity_versions := [0] }
    resources := Resources.emptyR, command_buffer := [] }

/-- Closed form of one `World::set_component` call on a live entity with an
empty command buffer: the registry update lands, the displaced value is
dropped, and the drain of the empty buffer is the identity. -/
theorem World.setComponentF_eq {V : Type} {w : World V} {k : Nat} {e : Entity} {v : V}
    {cs2 : Components V} {old : Option V} (fuel : Nat)
    (halive : w.entities.is_alive e = true)
    (hset : Components.set_component w.components k e v = some (cs2, old))
    (hbuf : w.command_buffer = []) :
    World.setComponentF (fuel + 2) w k e v = some { w with components := cs2 } := by
  rw [World.setComponentF, if_pos halive, hset]
  show World.processBufferF (fuel + 1) { w with components := cs2 }
    = some { w with components := cs2 }
  rw [World.processBufferF,
    show ({ w with components := cs2 } : World V).command_buffer = [] from hbuf]
  rw [World.processListF, ← hbuf]

/-- The registry after setting 99 over the stored payload on entity
`(0, 0)` (the same whatever payload was displaced). -/
def c7csAfter : Components Nat :=
  ((Components.set_component (c7cs 10) 7 ⟨0, 0⟩ 99).getD (Components.emptyC, none)).1

/-- C7 counterexample: the public `World::set_component` does not return the
displaced prior value.  Two worlds differing only in the prior payload of
component 7 on entity `(0, 0)` (10 versus 20) produce *identical* results of
the public call setting 99 — `world.rs` lines 245-252 pass the displaced
value to its (no-op default) `on_remove` hook and drop it, returning `()` —
so no caller of the public operation can recover the prior value. -/
theorem c7_displaced_value_not_returned :
    c7w 10 ≠ c7w 20 ∧
    Components.get_component (c7w 10).components 7 ⟨0, 0⟩ = some 10 ∧
    Components.get_component (c7w 20).components 7 ⟨0, 0⟩ = some 20 ∧
    World.setComponentF 2 (c7w 10) 7 ⟨0, 0⟩ 99 = World.setComponentF 2 (c7w 20) 7 ⟨0, 0⟩ 99 ∧
    (World.setComponentF 2 (c7w 10) 7 ⟨0, 0⟩ 99).isSome = true := by
  have h10 : World.setComponentF 2 (c7w 10) 7 ⟨0, 0⟩ 99
      = some { c7w 10 with components := c7csAfter } :=
    World.setComponentF_eq 0 (by decide)
      (show Components.set_component (c7w 10).components 7 ⟨0, 0⟩ 99
          = some (c7csAfter, some 10) from by decide) rfl
  have h20 : World.setComponentF 2 (c7w 20) 7 ⟨0, 0⟩ 99
      = some { c7w 20 with components := c7csAfter } :=
    World.setComponentF_eq 0 (by decide)
      (show Components.set_component (c7w 20).components 7 ⟨0, 0⟩ 99
          = some (c7csAfter, some 20) from by decide) rfl
  refine ⟨by decide, by decide, by decide, ?_, ?_⟩
  · rw [h10, h20]
    decide
  · rw [h10]
    rfl

/-- C7 amended: for an entity that already stores `c1` for the registered
component `k` (record `r`, per-type storage `sset`, stored signature `sig`
with `r`'s bit set), setting `c2` succeeds, stores `c2` as the unique
instance for the entity (the storage's key list holds `e.id` exactly once),
and the displaced `c1` is returned by the *internal*
`Components::set_component` — but only there; the public `World::set_component`
drops it (see the counterexample). -/
theorem c7_set_set_amended {V : Type} {cs : Components V} {k : Nat} {e : Entity}
    {c1 c2 : V} {r : ComponentRecord} {sset : SparseSet V} {sig : Nat}
    (hrec : alistLookup cs.component_records k = some r)
    (hcomp : cs.components[r.id]? = some sset)
    (hwf : sset.WF)
    (hget : sset.get e.id = some c1)
    (hsig : cs.entity_signatures.get e.id = some sig)
    (hbit : ¬ sig &&& r.signature = 0) :
    Components.set_component cs k e c2 =
      some ({ cs with components := cs.components.set r.id (sset.insert e.id c2).2 }, some c1) ∧
    Components.get_component
      { cs with components := cs.components.set r.id (sset.insert e.id c2).2 } k e = some c2 ∧
    (sset.insert e.id c2).2.mapping.count e.id = 1 := by
  have hins1 : (sset.insert e.id c2).1 = some c1 := by
    rw [SparseSet.insert_fst, hget]
  have hb : (sig &&& r.signature == 0) = false := by
    simp only [beq_eq_false_iff_ne, ne_eq]
    exact hbit
  have hlt : r.id < cs.components.length := by
    by_contra hh
    rw [List.getElem?_eq_none (by omega)] at hcomp
    cases hcomp
  refine ⟨?_, ?_, ?_⟩
  · simp only [Components.set_component, hrec, hsig, hcomp, hb, Bool.false_eq_true, if_false,
      hins1]
  · show (match alistLookup cs.component_records k with
      | none => none
      | some r2 =>
        match (cs.components.set r.id (sset.insert e.id c2).2)[r2.id]? with
        | none => none
        | some sset2 => sset2.get e.id) = some c2
    rw [hrec]
    show (match (cs.components.set r.id (sset.insert e.id c2).2)[r.id]? with
      | none => none
      | some sset2 => sset2.get e.id) = some c2
    rw [List.getElem?_set, if_pos rfl, if_pos hlt]
    show (sset.insert e.id c2).2.get e.id = some c2
    exact SparseSet.get_insert_self hwf e.id c2
  · have hwf2 := SparseSet.wf_insert hwf e.id c2
    rw [SparseSet.count_mapping hwf2 e.id]
    cases hsa : sparseArrayGet (sset.insert e.id c2).2.sparse_array e.id with
    | none =>
      have h9 := SparseSet.get_eq_of_sparse_none (sset.insert e.id c2).2 e.id hsa
      rw [SparseSet.get_insert_self hwf e.id c2] at h9
      cases h9
    | some idx => rfl

/-- The per-type storage of component 7 in `c7cs 10`. -/
def c7sset : SparseSet Nat := ((c7cs 10).components[0]?).getD SparseSet.empty

/-- Concrete instance of the amended C7 law on `c7cs 10`: setting 99 over the
stored 10 returns the displaced 10 internally, stores exactly one 99. -/
theorem c7_set_set_amended_witness :
    Components.set_component (c7cs 10) 7 ⟨0, 0⟩ 99 =
      some ({ c7cs 10 with
          components := (c7cs 10).components.set 0 (c7sset.insert 0 99).2 }, some 10) ∧
    Components.get_component
      { c7cs 10 with components := (c7cs 10).components.set 0 (c7sset.insert 0 99).2 }
      7 ⟨0, 0⟩ = some 99 ∧
    (c7sset.insert 0 99).2.mapping.count 0 = 1 :=
  @c7_set_set_amended Nat (c7cs 10) 7 ⟨0, 0⟩ 10 99 ⟨1, 0⟩ c7sset 1 (by decide) (by decide)
    ((SparseSet.wf_iff _).mp (by decide)) (by decide) (by decide) (by decide)

/-- Success of any of the fuelled `World` mutators is preserved by giving
more fuel (fuel is a modelling artifact of the mutual recursion; the source
functions just run). -/
def FuelMono (fuel : Nat) : Prop :=
  ∀ (V : Type) (fuel' : Nat), fuel ≤ fuel' →
    (∀ (w : World V) (e : Entity) (r : World V),
      World.despawnF fuel w e = some r → World.despawnF fuel' w e = some r) ∧
    (∀ (w r : World V),
      World.processBufferF fuel w = some r → World.processBufferF fuel' w = some r) ∧
    (∀ (w : World V) (cmds : List (Cmd V)) (r : World V),
      World.processListF fuel w cmds = some r → World.processListF fuel' w cmds = some r) ∧
    (∀ (w : World V) (c : Cmd V) (r : World V),
      World.applyCmdF fuel w c = some r → World.applyCmdF fuel' w c = some r) ∧
    (∀ (w : World V) (k : Nat) (e : Entity) (v : V) (r : World V),
      World.setComponentF fuel w k e v = some r → World.setComponentF fuel' w k e v = some r) ∧
    (∀ (w : World V) (k : Nat) (e : Entity) (r : World V),
      World.removeComponentF fuel w k e = some r →
        World.removeComponentF fuel' w k e = some r) ∧
    (∀ (w : World V) (k : Nat) (v : V) (r : World V),
      World.insertResourceF fuel w k v = some r → World.insertResourceF fuel' w k v = some r) ∧
    (∀ (w : World V) (k : Nat) (r : World V),
      World.removeResourceF fuel w k = some r → World.removeResourceF fuel' w k = some r) ∧
    (∀ (w : World V) (i : Nat) (r : World V),
      World.removeResourceByIdF fuel w i = some r → World.removeResourceByIdF fuel' w i = some r)

/-- Fuel monotonicity, by simultaneous induction over the mutual block. -/
theorem fuelMono : ∀ fuel, FuelMono fuel := by
  intro fuel
  induction fuel with
  | zero =>
    intro V fuel' hle
    refine ⟨?_, ?_, ?_, ?_, ?_, ?_, ?_, ?_, ?_⟩
    · intro w e r h
      rw [World.despawnF] at h
      exact Option.noConfusion h
    · intro w r h
      rw [World.processBufferF] at h
      exact Option.noConfusion h
    · intro w cmds r h
      cases cmds with
      | nil =>
        rw [World.processListF] at h
        rw [World.processListF]
        exact h
      | cons c rest =>
        rw [World.processListF] at h
        exact Option.noConfusion h
    · intro w c r h
      rw [World.applyCmdF] at h
      exact Option.noConfusion h
    · intro w k e v r h
      rw [World.setComponentF] at h
      exact Option.noConfusion h
    · intro w k e r h
      rw [World.removeComponentF] at h
      exact Option.noConfusion h
    · intro w k v r h
      rw [World.insertResourceF] at h
      exact Option.noConfusion h
    · intro w k r h
      rw [World.removeResourceF] at h
      exact Option.noConfusion h
    · intro w i r h
      rw [World.removeResourceByIdF] at h
      exact Option.noConfusion h
  | succ g ih =>
    intro V fuel' hle
    obtain ⟨g', rfl⟩ : ∃ g2, fuel' = g2 + 1 := ⟨fuel' - 1, by omega⟩
    have hg : g ≤ g' := by omega
    obtain ⟨md, mb, ml, ma, ms, mrc, mir, mrr, mri⟩ := ih V g' hg
    refine ⟨?_, ?_, ?_, ?_, ?_, ?_, ?_, ?_, ?_⟩
    · intro w e r h
      rw [World.despawnF] at h ⊢
      by_cases halive : w.entities.is_alive e = true
      · rw [if_pos halive] at h ⊢
        cases hd : w.entities.despawn e w.command_buffer with
        | none =>
          simp only [hd] at h
          exact Option.noConfusion h
        | some p =>
          obtain ⟨es2, buf2⟩ := p
          simp only [hd] at h ⊢
          cases hc : Components.despawn w.components e with
          | none =>
            simp only [hc] at h
            exact Option.noConfusion h
          | some cs2 =>
            simp only [hc] at h ⊢
            exact mb _ _ h
      · rw [if_neg halive] at h ⊢
        exact mb _ _ h
    · intro w r h
      rw [World.processBufferF] at h ⊢
      exact ml _ _ _ h
    · intro w cmds r h
      cases cmds with
      | nil =>
        rw [World.processListF] at h ⊢
        exact h
      | cons c rest =>
        rw [World.processListF] at h ⊢
        cases ha : World.applyCmdF g w c with
        | none =>
          simp only [ha] at h
          exact Option.noConfusion h
        | some w2 =>
          simp only [ha] at h
          simp only [ma _ _ _ ha]
          exact ml _ _ _ h
    · intro w c r h
      rw [World.applyCmdF.eq_def] at h ⊢
      cases c with
      | despawn e => exact md _ _ _ h
      | set_component k e v => exact ms _ _ _ _ _ h
      | remove_component k e => exact mrc _ _ _ _ h
      | insert_resource k v => exact mir _ _ _ _ h
      | remove_resource k => exact mrr _ _ _ h
      | remove_resource_by_id i => exact mri _ _ _ h
      | add_child p c2 => exact h
      | remove_child p c2 => exact h
      | remove_children e => exact h
    · intro w k e v r h
      rw [World.setComponentF] at h ⊢
      by_cases halive : w.entities.is_alive e = true
      · rw [if_pos halive] at h ⊢
        cases hs : Components.set_component w.components k e v with
        | none =>
          simp only [hs] at h
          exact Option.noConfusion h
        | some p =>
          obtain ⟨cs2, old⟩ := p
          simp only [hs] at h ⊢
          exact mb _ _ h
      · rw [if_neg halive] at h ⊢
        exact h
    · intro w k e r h
      rw [World.removeComponentF] at h ⊢
      by_cases halive : w.entities.is_alive e = true
      · rw [if_pos halive] at h ⊢
        cases hs : Components.remove_component w.components k e with
        | none =>
          simp only [hs] at h
          exact Option.noConfusion h
        | some p =>
          obtain ⟨cs2, old⟩ := p
          simp only [hs] at h ⊢
          exact mb _ _ h
      · rw [if_neg halive] at h ⊢
        exact h
    · intro w k v r h
      rw [World.insertResourceF] at h ⊢
      exact mb _ _ h
    · intro w k r h
      rw [World.removeResourceF] at h ⊢
      cases hr : (w.resources.removeR k).1 with
      | none =>
        simp only [hr] at h ⊢
        exact h
      | some v =>
        simp only [hr] at h ⊢
        exact mb _ _ h
    · intro w i r h
      rw [World.removeResourceByIdF] at h ⊢
      exact mb _ _ h

/-- Monotonicity of command dispatch, extracted. -/
theorem World.applyCmdF_mono {V : Type} {g g' : Nat} (hg : g ≤ g') {w : World V} {c : Cmd V}
    {r : World V} (h : World.applyCmdF g w c = some r) : World.applyCmdF g' w c = some r :=
  (fuelMono g V g' hg).2.2.2.1 w c r h

/-- Spec-side: one direct `World` mutator call, named per command, following
the spec's words for C4 ("calling the corresponding direct World mutators").
It is to be compared with the dispatch the code's replay performs. -/
def directCallSpec (fuel : Nat) (w : World V) : Cmd V → Option (World V)
  | .despawn e => World.despawnF fuel w e
  | .set_component k e v => World.setComponentF fuel w k e v
  | .remove_component k e => World.removeComponentF fuel w k e
  | .insert_resource k v => World.insertResourceF fuel w k v
  | .remove_resource k => World.removeResourceF fuel w k
  | .remove_resource_by_id i => World.removeResourceByIdF fuel w i
  | .add_child p c => World.add_child w p c
  | .remove_child p c => some (World.remove_child w p c)
  | .remove_children e => some (World.remove_children w e)

/-- Spec-side: calling the direct mutators front-to-back in insertion order
(a left fold over the queued commands). -/
def directReplaySpec (fuel : Nat) (w : World V) (cmds : List (Cmd V)) : Option (World V) :=
  cmds.foldlM (directCallSpec fuel) w

/-- The code's dispatch table is exactly the direct-mutator call. -/
theorem applyCmdF_succ_eq_directCallSpec {V : Type} (fuel : Nat) (w : World V) (c : Cmd V) :
    World.applyCmdF (fuel + 1) w c = directCallSpec fuel w c := by
  cases c <;> simp [World.applyCmdF, directCallSpec]

/-- The direct-mutator fold is fuel-monotone. -/
theorem foldlM_applyCmdF_mono {V : Type} {g g' : Nat} (hg : g ≤ g') {cmds : List (Cmd V)}
    {w r : World V} (h : cmds.foldlM (World.applyCmdF g) w = some r) :
    cmds.foldlM (World.applyCmdF g') w = some r := by
  induction cmds generalizing w with
  | nil => simpa using h
  | cons c rest ih =>
    rw [List.foldlM_cons] at h ⊢
    cases ha : World.applyCmdF g w c with
    | none =>
      rw [ha] at h
      exact Option.noConfusion h
    | some w2 =>
      rw [ha] at h
      rw [World.applyCmdF_mono hg ha]
      have h2 : rest.foldlM (World.applyCmdF g) w2 = some r := h
      show rest.foldlM (World.applyCmdF g') w2 = some r
      exact ih h2

/-- The code's queue walk agrees with the fold of dispatches at its top
fuel. -/
theorem processListF_eq_foldlM {V : Type} {fuel : Nat} {w r : World V} {cmds : List (Cmd V)}
    (h : World.processListF fuel w cmds = some r) :
    cmds.foldlM (World.applyCmdF fuel) w = some r := by
  induction cmds generalizing fuel w with
  | nil =>
    rw [World.processListF] at h
    simpa using h
  | cons c rest ih =>
    cases fuel with
    | zero =>
      rw [World.processListF] at h
      exact Option.noConfusion h
    | succ g =>
      rw [World.processListF] at h
      cases ha : World.applyCmdF g w c with
      | none =>
        simp only [ha] at h
        exact Option.noConfusion h
      | some w2 =>
        simp only [ha] at h
        rw [List.foldlM_cons, World.applyCmdF_mono (Nat.le_succ g) ha]
        show rest.foldlM (World.applyCmdF (g + 1)) w2 = some r
        exact foldlM_applyCmdF_mono (Nat.le_succ g) (ih h)

/-- C4: replaying the command buffer is order-preserving — draining the
buffer (which first swaps it out) applies the queued commands front-to-back,
and the resulting world is exactly the one obtained by calling the
corresponding direct `World` mutators in the same order (a left fold of
`directCallSpec` over the queue, starting from the world with the buffer
emptied). -/
theorem c4_replay_equals_direct_mutators {V : Type} {fuel : Nat} {w wn : World V}
    (h : World.processBufferF (fuel + 1) w = some wn) :
    directReplaySpec (fuel + 1) { w with command_buffer := [] } w.command_buffer = some wn := by
  rw [World.processBufferF] at h
  have h2 := processListF_eq_foldlM h
  unfold directReplaySpec
  have hfun : @directCallSpec V (fuel + 1) = fun w2 c => World.applyCmdF (fuel + 1 + 1) w2 c := by
    funext w2 c
    exact (applyCmdF_succ_eq_directCallSpec (fuel + 1) w2 c).symm
  rw [hfun]
  exact foldlM_applyCmdF_mono (by omega) h2

/-- The world `c4w` below with its buffer swapped out. -/
def c4w : World Nat := { c7w 10 with command_buffer := [Cmd.set_component 7 ⟨0, 0⟩ 99] }

/-- `c4w` with the buffer swapped out. -/
def c4w0 : World Nat := { c4w with command_buffer := [] }

/-- Concrete replay: draining the one-command buffer of `c4w` equals the
direct `set_component` call, setting 99 over the stored 10. -/
theorem c4_replay_equals_direct_mutators_witness :
    World.processBufferF (4 + 1) c4w = some { c4w0 with components := c7csAfter } ∧
    directReplaySpec (4 + 1) { c4w with command_buffer := [] } c4w.command_buffer
      = some { c4w0 with components := c7csAfter } := by
  have hset : World.setComponentF (0 + 2) c4w0 7 ⟨0, 0⟩ 99
      = some { c4w0 with components := c7csAfter } :=
    World.setComponentF_eq 0 (by decide)
      (show Components.set_component c4w0.components 7 ⟨0, 0⟩ 99
          = some (c7csAfter, some 10) from by decide) rfl
  have ha : World.applyCmdF (2 + 1) c4w0 (Cmd.set_component 7 ⟨0, 0⟩ 99)
      = some { c4w0 with components := c7csAfter } := by
    rw [applyCmdF_succ_eq_directCallSpec]
    show World.setComponentF 2 c4w0 7 ⟨0, 0⟩ 99 = _
    exact hset
  have h : World.processBufferF (4 + 1) c4w = some { c4w0 with components := c7csAfter } := by
    rw [World.processBufferF]
    show World.processListF (2 + 1 + 1) c4w0 [Cmd.set_component 7 ⟨0, 0⟩ 99] = _
    rw [World.processListF]
    simp only [ha]
    rw [World.processListF]
  exact ⟨h, c4_replay_equals_direct_mutators h⟩

/-- The version stored at slot `i` (0 when the slot is not materialized,
matching the value a first despawn would find). -/
def storedD (w : World V) (i : Nat) : Nat := (w.entities.entity_versions[i]?).getD 0

/-- The children list recorded for id `pid`. -/
def childlist (w : World V) (pid : Nat) : List Entity :=
  (w.entities.children.get pid).getD []

/-- An entity whose version agrees with its stored slot (the state of every
entity handed out by `spawn` and not yet despawned). -/
def TrulyAlive (w : World V) (x : Entity) : Prop := x.version = storedD w x.id

/-- An entity whose slot has moved past it: despawned for good. -/
def DeadAfter (w : World V) (x : Entity) : Prop := x.version < storedD w x.id

/-- Descendants of `root` through the children index, stepping only through
truly-alive parents (a stale parent's slot no longer owns the children entry
of its id). -/
inductive DescA (w : World V) (root : Entity) : Entity → Prop
  | refl : DescA w root root
  | step {p x : Entity} : DescA w root p → TrulyAlive w p → x ∈ childlist w p.id →
      DescA w root x

/-- As `DescA`, but no step goes through a parent with id `bad`. -/
inductive DescAvoid (w : World V) (bad : Nat) (root : Entity) : Entity → Prop
  | refl : DescAvoid w bad root root
  | step {p x : Entity} : DescAvoid w bad root p → TrulyAlive w p → x ∈ childlist w p.id →
      p.id ≠ bad → DescAvoid w bad root x

/-- The reachable-world invariants C9 rests on: a coherent children index,
and every recorded child at or below its stored slot (children are recorded
while alive and slots only grow). -/
def Inv9 (w : World V) : Prop :=
  w.entities.children.WF ∧ ∀ pid x, x ∈ childlist w pid → x.version ≤ storedD w x.id

/-- Slots only grow. -/
def Growth9 (u u2 : World V) : Prop := ∀ i, storedD u i ≤ storedD u2 i

/-- Children entries are preserved unless their slot was bumped. -/
def CPres (u u2 : World V) : Prop :=
  ∀ pid, childlist u2 pid = childlist u pid ∨ storedD u pid < storedD u2 pid

/-- Whenever a call kills a truly-alive entity, it also kills the truly-alive
entries of that entity's original children list. -/
def K2Prop (u u2 : World V) : Prop :=
  ∀ p x, TrulyAlive u p → DeadAfter u2 p → x ∈ childlist u p.id → TrulyAlive u x →
    DeadAfter u2 x

/-- Every truly-alive descendant of `d` is dead afterwards. -/
def KillFrom (u u2 : World V) (d : Entity) : Prop :=
  ∀ x, DescA u d x → TrulyAlive u x → DeadAfter u2 x

/-- A buffer holding only despawn commands (the only kind a drain that
started from an empty buffer ever queues). -/
def OnlyDespawns (cmds : List (Cmd V)) : Prop := ∀ c ∈ cmds, ∃ x, c = Cmd.despawn x

/-- Each queued despawn target loses all its truly-alive descendants. -/
def TargetsKilled (u u2 : World V) (cmds : List (Cmd V)) : Prop :=
  ∀ d, Cmd.despawn d ∈ cmds → KillFrom u u2 d

/-- What every call of the drain guarantees. -/
def PostCall (u u2 : World V) : Prop :=
  Inv9 u2 ∧ u2.command_buffer = [] ∧ Growth9 u u2 ∧ CPres u u2 ∧ K2Prop u u2

/-- A truly-alive entity is reported alive. -/
theorem TrulyAlive.is_alive {w : World V} {x : Entity} (h : TrulyAlive w x) :
    w.entities.is_alive x = true := by
  unfold Entities.is_alive
  cases hv : w.entities.entity_versions[x.id]? with
  | none => rfl
  | some v =>
    have h2 : x.version = v := by
      have h3 := h
      unfold TrulyAlive storedD at h3
      rw [hv] at h3
      exact h3
    simp [h2]

/-- A dead-for-good entity is reported dead. -/
theorem DeadAfter.not_alive {w : World V} {x : Entity} (h : DeadAfter w x) :
    w.entities.is_alive x = false := by
  unfold Entities.is_alive
  cases hv : w.entities.entity_versions[x.id]? with
  | none =>
    have h3 := h
    unfold DeadAfter storedD at h3
    rw [hv] at h3
    simp at h3
  | some v =>
    have h3 := h
    unfold DeadAfter storedD at h3
    rw [hv] at h3
    simp only [Option.getD_some] at h3
    simp
    omega

/-- Being dead for good is stable under slot growth. -/
theorem DeadAfter.mono {u u2 : World V} {x : Entity} (hg : Growth9 u u2)
    (h : DeadAfter u x) : DeadAfter u2 x := by
  unfold DeadAfter at h ⊢
  exact lt_of_lt_of_le h (hg x.id)

/-- A nontrivial descendant chain forces its root to be truly alive. -/
theorem DescA.root_alive {u : World V} {d x : Entity} (h : DescA u d x) :
    x = d ∨ TrulyAlive u d := by
  induction h with
  | refl => exact Or.inl rfl
  | step hp hta hm ih =>
    cases ih with
    | inl he => exact Or.inr (he ▸ hta)
    | inr hta2 => exact Or.inr hta2

/-- Guarantees compose. -/
theorem postCall_trans {u u2 u3 : World V} (h1 : PostCall u u2) (h2 : PostCall u2 u3) :
    PostCall u u3 := by
  obtain ⟨hi1, hb1, hg1, hc1, hk1⟩ := h1
  obtain ⟨hi2, hb2, hg2, hc2, hk2⟩ := h2
  refine ⟨hi2, hb2, fun i => le_trans (hg1 i) (hg2 i), ?_, ?_⟩
  · intro pid
    cases hc2 pid with
    | inl he =>
      cases hc1 pid with
      | inl he1 => exact Or.inl (he.trans he1)
      | inr hlt => exact Or.inr (lt_of_lt_of_le hlt (hg2 pid))
    | inr hlt => exact Or.inr (lt_of_le_of_lt (hg1 pid) hlt)
  · intro p x hta hdead hm htax
    rcases lt_or_eq_of_le (hg1 p.id) with hlt | heq
    · have hdp : DeadAfter u2 p := by
        unfold DeadAfter
        unfold TrulyAlive at hta
        omega
      have hdx := hk1 p x hta hdp hm htax
      exact hdx.mono hg2
    · have hta2 : TrulyAlive u2 p := by
        unfold TrulyAlive at hta ⊢
        omega
      have hm2 : x ∈ childlist u2 p.id := by
        cases hc1 p.id with
        | inl he => rw [he]; exact hm
        | inr hlt => unfold TrulyAlive at hta; omega
      rcases lt_or_eq_of_le (hg1 x.id) with hltx | heqx
      · have hdx : DeadAfter u2 x := by
          unfold DeadAfter
          unfold TrulyAlive at htax
          omega
        exact hdx.mono hg2
      · have htax2 : TrulyAlive u2 x := by
          unfold TrulyAlive at htax ⊢
          omega
        exact hk2 p x hta2 hdead hm2 htax2

/-- Transfer of a descendant chain across a call: each node is either already
dead, or still truly alive with the chain intact. -/
theorem descA_transfer {u u2 : World V} (hg : Growth9 u u2) (hc : CPres u u2)
    (hk : K2Prop u u2) {d x : Entity} (h : DescA u d x) (hta : TrulyAlive u x) :
    DeadAfter u2 x ∨ (TrulyAlive u2 x ∧ DescA u2 d x) := by
  induction h with
  | refl =>
    rcases lt_or_eq_of_le (hg d.id) with hlt | heq
    · exact Or.inl (by unfold DeadAfter; unfold TrulyAlive at hta; omega)
    · exact Or.inr ⟨by unfold TrulyAlive at hta ⊢; omega, DescA.refl⟩
  | @step p y hp htap hm ih =>
    cases ih htap with
    | inl hdp => exact Or.inl (hk _ _ htap hdp hm hta)
    | inr hh =>
      obtain ⟨htap2, hdp2⟩ := hh
      have hm2 : y ∈ childlist u2 p.id := by
        cases hc p.id with
        | inl he => rw [he]; exact hm
        | inr hlt =>
          exfalso
          unfold TrulyAlive at htap htap2
          omega
      rcases lt_or_eq_of_le (hg y.id) with hlt | heq
      · exact Or.inl (by unfold DeadAfter; unfold TrulyAlive at hta; omega)
      · exact Or.inr ⟨by unfold TrulyAlive at hta ⊢; omega, hdp2.step htap2 hm2⟩

/-- Splitting a chain from `d` at the last step out of id `d.id`: either the
chain is trivial, or it exits through a recorded child of `d.id` and then
avoids `d.id` entirely. -/
theorem descA_split {u : World V} {d x : Entity} (h : DescA u d x) :
    x = d ∨ ∃ c, c ∈ childlist u d.id ∧ DescAvoid u d.id c x := by
  induction h with
  | refl => exact Or.inl rfl
  | @step p y hp htap hm ih =>
    by_cases hpid : p.id = d.id
    · exact Or.inr ⟨y, by rw [← hpid]; exact hm, DescAvoid.refl⟩
    · cases ih with
      | inl he =>
        rw [he] at hm
        exact Or.inr ⟨y, hm, DescAvoid.refl⟩
      | inr hh =>
        obtain ⟨c, hcm, hav⟩ := hh
        exact Or.inr ⟨c, hcm, hav.step htap hm hpid⟩

/-- A chain avoiding `bad` survives any call that only touches slot `bad` and
the children entry of `bad`. -/
theorem descAvoid_transfer {u u2 : World V} {bad : Nat}
    (hs : ∀ i, i ≠ bad → storedD u2 i = storedD u i)
    (hc : ∀ pid, pid ≠ bad → childlist u2 pid = childlist u pid)
    {c x : Entity} (h : DescAvoid u bad c x) : DescA u2 c x := by
  induction h with
  | refl => exact DescA.refl
  | step hp htap hm hne ih =>
    refine ih.step ?_ ?_
    · unfold TrulyAlive at htap ⊢
      rw [hs _ hne]
      exact htap
    · rw [hc _ hne]
      exact hm

/-- The version vector as `Entities::despawn` materializes it before the
bump. -/
def extendTo (l : List Nat) (j : Nat) : List Nat :=
  if l.length ≤ j then l ++ List.replicate (j + 1 - l.length) 0 else l

/-- Materializing slots does not change any stored-or-zero value. -/
theorem extendTo_getD (l : List Nat) (j i : Nat) :
    ((extendTo l j)[i]?).getD 0 = (l[i]?).getD 0 := by
  unfold extendTo
  by_cases hle : l.length ≤ j
  · rw [if_pos hle]
    by_cases hi : i < l.length
    · rw [List.getElem?_append_left hi]
    · rw [List.getElem?_append_right (by omega),
        List.getElem?_eq_none (show l.length ≤ i by omega), List.getElem?_replicate]
      by_cases h2 : i - l.length < j + 1 - l.length
      · rw [if_pos h2]
        rfl
      · rw [if_neg h2]
  · rw [if_neg hle]

/-- The materialized vector covers slot `j`. -/
theorem extendTo_lt (l : List Nat) (j : Nat) : j < (extendTo l j).length := by
  unfold extendTo
  by_cases hle : l.length ≤ j
  · rw [if_pos hle, List.length_append, List.length_replicate]
    omega
  · rw [if_neg hle]
    omega

/-- Inversion of a successful `Entities::despawn`: the stored slot of the
target is bumped, its children entry is dropped, and a despawn command is
queued for each recorded child. -/
theorem Entities.despawn_inv {V : Type} {es : Entities} {e : Entity} {buffer : List (Cmd V)}
    {es2 : Entities} {buf2 : List (Cmd V)}
    (h : Entities.despawn es e buffer = some (es2, buf2)) :
    es2.entity_versions = (extendTo es.entity_versions e.id).set e.id
        (((extendTo es.entity_versions e.id)[e.id]?).getD 0 + 1) ∧
    es2.children = (es.children.remove e.id).2 ∧
    buf2 = (match (es.children.remove e.id).1 with
      | some lst => buffer ++ lst.map Cmd.despawn
      | none => buffer) := by
  have hdef : Entities.despawn es e buffer =
      (if 65535 < ((extendTo es.entity_versions e.id)[e.id]?).getD 0 + 1 then none
       else some
        ({ free_entity_ids := (es.free_entity_ids.take (es.free_entity_ids.length -
              min es.claimed_free_entities es.free_entity_ids.length)) ++ [e.id]
           entity_versions := (extendTo es.entity_versions e.id).set e.id
             (((extendTo es.entity_versions e.id)[e.id]?).getD 0 + 1)
           claimed_free_entities := 0
           highest_free_entity_id := es.highest_free_entity_id
           children := (es.children.remove e.id).2 },
         match (es.children.remove e.id).1 with
         | some lst => buffer ++ lst.map Cmd.despawn
         | none => buffer)) := rfl
  rw [hdef] at h
  by_cases hof : 65535 < ((extendTo es.entity_versions e.id)[e.id]?).getD 0 + 1
  · rw [if_pos hof] at h
    exact Option.noConfusion h
  · rw [if_neg hof] at h
    rw [Option.some.injEq, Prod.mk.injEq] at h
    obtain ⟨h1, h2⟩ := h
    refine ⟨?_, ?_, h2.symm⟩
    · rw [← h1]
    · rw [← h1]

/-- The world `World::despawn` hands to the buffer drain after the entity
step and the registry step. -/
def stepWorld (cs2 : Components V) (es2 : Entities) (rs : Resources V)
    (buf2 : List (Cmd V)) : World V :=
  { components := cs2, entities := es2, resources := rs, command_buffer := buf2 }

/-- The facts the C9 induction reads off one `Entities::despawn` step (the
stepped world also swaps in the post-`Components::despawn` registry, which
none of the tracked state observes). -/
theorem despawn_step_post {V : Type} {u : World V} {d : Entity} {es2 : Entities}
    {buf2 : List (Cmd V)} {cs2 : Components V} (hInv : Inv9 u) (hbuf : u.command_buffer = [])
    (hd : Entities.despawn u.entities d u.command_buffer = some (es2, buf2)) :
    Inv9 (stepWorld cs2 es2 u.resources buf2) ∧
    buf2 = (childlist u d.id).map Cmd.despawn ∧
    (∀ i, storedD (stepWorld cs2 es2 u.resources buf2) i =
      if i = d.id then storedD u d.id + 1 else storedD u i) ∧
    (∀ pid, childlist (stepWorld cs2 es2 u.resources buf2) pid =
      if pid = d.id then [] else childlist u pid) := by
  obtain ⟨hwf, hck⟩ := hInv
  obtain ⟨h1, h2, h3⟩ := Entities.despawn_inv hd
  have hst : ∀ i, storedD (stepWorld cs2 es2 u.resources buf2) i =
      if i = d.id then storedD u d.id + 1 else storedD u i := by
    intro i
    show (es2.entity_versions[i]?).getD 0 = _
    rw [h1]
    by_cases hi : i = d.id
    · subst hi
      rw [if_pos rfl, List.getElem?_set, if_pos rfl, if_pos (extendTo_lt _ _),
        Option.getD_some, extendTo_getD]
      rfl
    · rw [if_neg hi, List.getElem?_set, if_neg (by omega)]
      exact extendTo_getD _ _ _
  have hch : ∀ pid, childlist (stepWorld cs2 es2 u.resources buf2) pid =
      if pid = d.id then [] else childlist u pid := by
    intro pid
    show (es2.children.get pid).getD [] = _
    rw [h2]
    by_cases hp : pid = d.id
    · subst hp
      rw [if_pos rfl, SparseSet.get_remove_self hwf]
      rfl
    · rw [if_neg hp, SparseSet.get_remove_other hwf hp]
      rfl
  have hbuf2 : buf2 = (childlist u d.id).map Cmd.despawn := by
    rw [h3, SparseSet.remove_fst hwf, hbuf]
    unfold childlist
    cases hg : u.entities.children.get d.id with
    | none => rfl
    | some lst => rfl
  refine ⟨⟨?_, ?_⟩, hbuf2, hst, hch⟩
  · show es2.children.WF
    rw [h2]
    exact SparseSet.wf_remove hwf d.id
  · intro pid x hm
    rw [hch pid] at hm
    by_cases hp : pid = d.id
    · rw [if_pos hp] at hm
      exact absurd hm (List.not_mem_nil x)
    · rw [if_neg hp] at hm
      have h4 := hck pid x hm
      rw [hst x.id]
      by_cases hx : x.id = d.id
      · rw [if_pos hx]
        rw [hx] at h4
        omega
      · rw [if_neg hx]
        exact h4

/-- Descendant chains only read the entity state. -/
theorem descA_of_entities_eq {V : Type} {u v : World V} (h : u.entities = v.entities)
    {d x : Entity} (hd : DescA u d x) : DescA v d x := by
  induction hd with
  | refl => exact DescA.refl
  | @step p y hp htap hm ih =>
    refine ih.step ?_ ?_
    · unfold TrulyAlive storedD at htap ⊢
      rw [← h]
      exact htap
    · unfold childlist at hm ⊢
      rw [← h]
      exact hm

/-- A call that does nothing satisfies the guarantees. -/
theorem postCall_refl {V : Type} {u : World V} (hInv : Inv9 u)
    (hb : u.command_buffer = []) : PostCall u u :=
  ⟨hInv, hb, fun i => le_refl _, fun pid => Or.inl rfl,
    fun p x hta hdead hm htax => by
      unfold TrulyAlive at hta
      unfold DeadAfter at hdead
      omega⟩

/-- The simultaneous induction statement for C9: every drain call preserves
the invariants, empties the buffer, only grows slots, drops children entries
only alongside a bump, kills children along with their parent, and kills the
truly-alive descendant cone of each despawn target. -/
def Master (fuel : Nat) : Prop :=
  (∀ (V : Type) (u un : World V) (d : Entity), Inv9 u → u.command_buffer = [] →
    World.despawnF fuel u d = some un → PostCall u un ∧ KillFrom u un d) ∧
  (∀ (V : Type) (u un : World V), Inv9 u → OnlyDespawns u.command_buffer →
    World.processBufferF fuel u = some un →
      PostCall u un ∧ TargetsKilled u un u.command_buffer) ∧
  (∀ (V : Type) (u un : World V) (cmds : List (Cmd V)), Inv9 u → u.command_buffer = [] →
    OnlyDespawns cmds → World.processListF fuel u cmds = some un →
      PostCall u un ∧ TargetsKilled u un cmds)

/-- The C9 induction. -/
theorem masterC9 : ∀ fuel, Master fuel := by
  intro fuel
  induction fuel using Nat.strong_induction_on with
  | _ fuel ih =>
    cases fuel with
    | zero =>
      refine ⟨?_, ?_, ?_⟩
      · intro V u un d hInv hbuf h
        rw [World.despawnF] at h
        exact Option.noConfusion h
      · intro V u un hInv honly h
        rw [World.processBufferF] at h
        exact Option.noConfusion h
      · intro V u un cmds hInv hbuf honly h
        cases cmds with
        | nil =>
          rw [World.processListF] at h
          obtain rfl := Option.some.inj h
          exact ⟨postCall_refl hInv hbuf, fun d hm => absurd hm (List.not_mem_nil _)⟩
        | cons c rest =>
          rw [World.processListF] at h
          exact Option.noConfusion h
    | succ g =>
      refine ⟨?_, ?_, ?_⟩
      · -- despawnF
        intro V u un d hInv hbuf h
        rw [World.despawnF] at h
        by_cases halive : u.entities.is_alive d = true
        · rw [if_pos halive] at h
          cases hd : u.entities.despawn d u.command_buffer with
          | none =>
            simp only [hd] at h
            exact Option.noConfusion h
          | some pr =>
            obtain ⟨es2, buf2⟩ := pr
            simp only [hd] at h
            cases hc : Components.despawn u.components d with
            | none =>
              simp only [hc] at h
              exact Option.noConfusion h
            | some cs2 =>
              simp only [hc] at h
              obtain ⟨hInv2, hbuf2eq, hst, hch⟩ := @despawn_step_post V u d es2 buf2 cs2 hInv hbuf hd
              have honly : OnlyDespawns (stepWorld cs2 es2 u.resources buf2).command_buffer := by
                show OnlyDespawns buf2
                rw [hbuf2eq]
                intro c2 hm
                obtain ⟨a, ha1, ha2⟩ := List.mem_map.mp hm
                exact ⟨a, ha2.symm⟩
              obtain ⟨hPostB, hKillB⟩ := (ih g (by omega)).2.1 V
                (stepWorld cs2 es2 u.resources buf2) un hInv2 honly h
              obtain ⟨hInvN, hbufN, hgB, hcB, hkB⟩ := hPostB
              have hgStep : ∀ i, storedD u i ≤ storedD (stepWorld cs2 es2 u.resources buf2) i := by
                intro i
                rw [hst i]
                by_cases hi : i = d.id
                · rw [if_pos hi, hi]
                  omega
                · rw [if_neg hi]
              have hgA : Growth9 u un := fun i => le_trans (hgStep i) (hgB i)
              refine ⟨⟨hInvN, hbufN, hgA, ?_, ?_⟩, ?_⟩
              · -- CPres
                intro pid
                by_cases hp : pid = d.id
                · refine Or.inr ?_
                  have h5 := hgB pid
                  rw [hst pid, if_pos hp, hp] at h5
                  rw [hp]
                  omega
                · cases hcB pid with
                  | inl he =>
                    refine Or.inl ?_
                    rw [he, hch pid, if_neg hp]
                  | inr hl =>
                    refine Or.inr ?_
                    rw [hst pid, if_neg hp] at hl
                    exact hl
              · -- K2
                intro p x htap hdead hm htax
                by_cases hx : x.id = d.id
                · have hdx : DeadAfter (stepWorld cs2 es2 u.resources buf2) x := by
                    unfold DeadAfter
                    rw [hst x.id, if_pos hx]
                    unfold TrulyAlive at htax
                    rw [hx] at htax
                    omega
                  exact hdx.mono hgB
                · have htax2 : TrulyAlive (stepWorld cs2 es2 u.resources buf2) x := by
                    unfold TrulyAlive at htax ⊢
                    rw [hst x.id, if_neg hx]
                    exact htax
                  by_cases hp : p.id = d.id
                  · have htgt : Cmd.despawn x ∈ buf2 := by
                      rw [hbuf2eq]
                      refine List.mem_map_of_mem _ ?_
                      rw [← hp]
                      exact hm
                    exact hKillB x htgt x DescA.refl htax2
                  · have htap2 : TrulyAlive (stepWorld cs2 es2 u.resources buf2) p := by
                      unfold TrulyAlive at htap ⊢
                      rw [hst p.id, if_neg hp]
                      exact htap
                    have hm2 : x ∈ childlist (stepWorld cs2 es2 u.resources buf2) p.id := by
                      rw [hch p.id, if_neg hp]
                      exact hm
                    exact hkB p x htap2 hdead hm2 htax2
              · -- KillFrom
                intro x hdesc htax
                cases descA_split hdesc with
                | inl he =>
                  subst he
                  have hdx : DeadAfter (stepWorld cs2 es2 u.resources buf2) x := by
                    unfold DeadAfter
                    rw [hst x.id, if_pos rfl]
                    unfold TrulyAlive at htax
                    omega
                  exact hdx.mono hgB
                | inr hh =>
                  obtain ⟨c2, hcm, hav⟩ := hh
                  by_cases hx : x.id = d.id
                  · have hdx : DeadAfter (stepWorld cs2 es2 u.resources buf2) x := by
                      unfold DeadAfter
                      rw [hst x.id, if_pos hx]
                      unfold TrulyAlive at htax
                      rw [hx] at htax
                      omega
                    exact hdx.mono hgB
                  · have htgt : Cmd.despawn c2 ∈ buf2 := by
                      rw [hbuf2eq]
                      exact List.mem_map_of_mem _ hcm
                    have hdesc2 : DescA (stepWorld cs2 es2 u.resources buf2) c2 x := by
                      refine descAvoid_transfer ?_ ?_ hav
                      · intro i hi
                        rw [hst i, if_neg hi]
                      · intro pid hp
                        rw [hch pid, if_neg hp]
                    have htax2 : TrulyAlive (stepWorld cs2 es2 u.resources buf2) x := by
                      unfold TrulyAlive at htax ⊢
                      rw [hst x.id, if_neg hx]
                      exact htax
                    exact hKillB c2 htgt x hdesc2 htax2
        · rw [if_neg halive] at h
          have honly : OnlyDespawns u.command_buffer := by
            rw [hbuf]
            intro c2 hm
            exact absurd hm (List.not_mem_nil c2)
          obtain ⟨hPostB, hKillB⟩ := (ih g (by omega)).2.1 V u un hInv honly h
          refine ⟨hPostB, ?_⟩
          intro x hdesc htax
          cases hdesc.root_alive with
          | inl he =>
            subst he
            exact absurd htax.is_alive halive
          | inr hta =>
            exact absurd hta.is_alive halive
      · -- processBufferF
        intro V u un hInv honly h
        rw [World.processBufferF] at h
        have hL := (ih g (by omega)).2.2 V { u with command_buffer := [] } un
          u.command_buffer hInv rfl honly h
        obtain ⟨⟨hi2, hb2, hg2, hc2, hk2⟩, ht2⟩ := hL
        refine ⟨⟨hi2, hb2, fun i => hg2 i, fun pid => hc2 pid, ?_⟩, ?_⟩
        · intro p x hta hdead hm htax
          exact hk2 p x hta hdead hm htax
        · intro d hm x hdesc htax
          exact ht2 d hm x
            (@descA_of_entities_eq V u { u with command_buffer := [] } rfl d x hdesc) htax
      · -- processListF
        intro V u un cmds hInv hbuf honly h
        cases cmds with
        | nil =>
          rw [World.processListF] at h
          obtain rfl := Option.some.inj h
          exact ⟨postCall_refl hInv hbuf, fun d hm => absurd hm (List.not_mem_nil _)⟩
        | cons c rest =>
          obtain ⟨dx, rfl⟩ := honly c (List.mem_cons_self c rest)
          rw [World.processListF] at h
          cases ha : World.applyCmdF g u (Cmd.despawn dx) with
          | none =>
            simp only [ha] at h
            exact Option.noConfusion h
          | some u2 =>
            simp only [ha] at h
            cases g with
            | zero =>
              rw [World.applyCmdF] at ha
              exact Option.noConfusion ha
            | succ g2 =>
              have ha2 : World.despawnF g2 u dx = some u2 := by
                rw [World.applyCmdF.eq_def] at ha
                exact ha
              obtain ⟨hPostA, hKillA⟩ := (ih g2 (by omega)).1 V u u2 dx hInv hbuf ha2
              have honly2 : OnlyDespawns rest :=
                fun c2 hm => honly c2 (List.mem_cons_of_mem _ hm)
              obtain ⟨hPostL, hKillL⟩ := (ih (g2 + 1) (by omega)).2.2 V u2 un rest
                hPostA.1 hPostA.2.1 honly2 h
              refine ⟨postCall_trans hPostA hPostL, ?_⟩
              intro d' hm x hdesc htax
              rcases List.mem_cons.mp hm with he | hr
              · have hdd : d' = dx := by
                  injection he
                subst hdd
                exact (hKillA x hdesc htax).mono hPostL.2.2.1
              · cases descA_transfer hPostA.2.2.1 hPostA.2.2.2.1 hPostA.2.2.2.2
                    hdesc htax with
                | inl hdead => exact hdead.mono hPostL.2.2.1
                | inr hh => exact hKillL d' hr x hh.2 hh.1

/-- C9: hierarchical despawn is transitive.  In a world with the reachable
invariants (coherent children index, recorded children at or below their
stored slot, drained buffer), a successful `World::despawn` of `e` — which
queues a despawn command for each child and drains the buffer, each queued
despawn queueing and draining its own children in turn — leaves every
truly-alive descendant of `e` (through any chain of children lists, not just
the direct children) dead. -/
theorem c9_despawn_transitive {V : Type} {fuel : Nat} {w wn : World V} {e : Entity}
    (hwf : w.entities.children.WF)
    (hck : ∀ pid x, x ∈ childlist w pid → x.version ≤ storedD w x.id)
    (hbuf : w.command_buffer = [])
    (h : World.despawnF fuel w e = some wn) :
    ∀ x, DescA w e x → TrulyAlive w x → wn.entities.is_alive x = false := by
  intro x hdesc htax
  exact DeadAfter.not_alive (((masterC9 fuel).1 V w wn e ⟨hwf, hck⟩ hbuf h).2 x hdesc htax)

/-- A world with entity `(0, 0)` parenting `(1, 0)` (fresh slots, empty
buffer). -/
def c9es0 : Entities :=
  { free_entity_ids := [], entity_versions := [], claimed_free_entities := 0
    highest_free_entity_id := 0
    children := { sparse_array := [some 0], dense := [[(⟨1, 0⟩ : Entity)]], mapping := [0] } }

/-- The world over `c9es0`. -/
def c9w : World Nat :=
  { components := Components.emptyC, entities := c9es0, resources := Resources.emptyR
    command_buffer := [] }

/-- The entity state after despawning `(0, 0)`: slot 0 bumped, its children
entry dropped, the child queued. -/
def c9es1 : Entities :=
  { free_entity_ids := [0], entity_versions := [1], claimed_free_entities := 0
    highest_free_entity_id := 0
    children := { sparse_array := [none], dense := [], mapping := [] } }

/-- The drained world mid-run, about to process the queued child despawn. -/
def c9u1b : World Nat :=
  { components := Components.emptyC, entities := c9es1, resources := Resources.emptyR
    command_buffer := [] }

/-- The entity state after the queued despawn of `(1, 0)` also ran. -/
def c9es2 : Entities :=
  { free_entity_ids := [0, 1], entity_versions := [1, 1], claimed_free_entities := 0
    highest_free_entity_id := 0
    children := { sparse_array := [none], dense := [], mapping := [] } }

/-- The final world of the hierarchical despawn. -/
def c9wn : World Nat :=
  { components := Components.emptyC, entities := c9es2, resources := Resources.emptyR
    command_buffer := [] }

/-- Concrete hierarchical despawn: despawning the parent kills the child too,
through the command buffer. -/
theorem c9_despawn_transitive_witness :
    World.despawnF ((((((1 + 1) + 1) + 1) + 1) + 1) + 1) c9w ⟨0, 0⟩ = some c9wn ∧
    c9wn.entities.is_alive ⟨0, 0⟩ = false ∧
    c9wn.entities.is_alive ⟨1, 0⟩ = false := by
  have hwf9 : c9w.entities.children.WF := (SparseSet.wf_iff _).mp (by decide)
  have hck9 : ∀ pid x, x ∈ childlist c9w pid → x.version ≤ storedD c9w x.id := by
    intro pid x hm
    cases pid with
    | zero =>
      have h0 : childlist c9w 0 = [⟨1, 0⟩] := by decide
      rw [h0, List.mem_singleton] at hm
      subst hm
      decide
    | succ pid2 =>
      have h0 : childlist c9w (pid2 + 1) = [] := by
        unfold childlist SparseSet.get sparseArrayGet
        rw [show c9w.entities.children.sparse_array[pid2 + 1]? = none from
          List.getElem?_eq_none (by show 1 ≤ pid2 + 1; omega)]
        rfl
      rw [h0] at hm
      exact absurd hm (List.not_mem_nil x)
  have hinner : World.despawnF ((1 + 1) + 1) c9u1b ⟨1, 0⟩ = some c9wn := by
    rw [World.despawnF, if_pos (by decide)]
    simp only [show Entities.despawn c9u1b.entities ⟨1, 0⟩ c9u1b.command_buffer
        = some (c9es2, ([] : List (Cmd Nat))) from by decide,
      show Components.despawn c9u1b.components ⟨1, 0⟩
        = some (Components.emptyC : Components Nat) from by decide]
    rw [World.processBufferF]
    show World.processListF 1
      { components := Components.emptyC, entities := c9es2, resources := c9u1b.resources
        command_buffer := ([] : List (Cmd Nat)) } [] = some c9wn
    rw [World.processListF]
    decide
  have hrun : World.despawnF ((((((1 + 1) + 1) + 1) + 1) + 1) + 1) c9w ⟨0, 0⟩
      = some c9wn := by
    rw [World.despawnF, if_pos (by decide)]
    simp only [show Entities.despawn c9w.entities ⟨0, 0⟩ c9w.command_buffer
        = some (c9es1, [Cmd.despawn ⟨1, 0⟩]) from by decide,
      show Components.despawn c9w.components ⟨0, 0⟩
        = some (Components.emptyC : Components Nat) from by decide]
    rw [World.processBufferF]
    show World.processListF ((((1 + 1) + 1) + 1) + 1) c9u1b [Cmd.despawn ⟨1, 0⟩] = some c9wn
    rw [World.processListF]
    have ha : World.applyCmdF (((1 + 1) + 1) + 1) c9u1b (Cmd.despawn ⟨1, 0⟩) = some c9wn := by
      rw [applyCmdF_succ_eq_directCallSpec]
      show World.despawnF ((1 + 1) + 1) c9u1b ⟨1, 0⟩ = some c9wn
      exact hinner
    simp only [ha]
    rw [World.processListF]
  refine ⟨hrun, ?_, ?_⟩
  · exact c9_despawn_transitive hwf9 hck9 rfl hrun ⟨0, 0⟩ DescA.refl
      (by unfold TrulyAlive; decide)
  · refine c9_despawn_transitive hwf9 hck9 rfl hrun ⟨1, 0⟩ ?_ (by unfold TrulyAlive; decide)
    refine DescA.step DescA.refl ?_ ?_
    · unfold TrulyAlive
      decide
    · decide

/-- C3 counterexample: on a fresh `Entities` the entity `(id 0, version 1)` is
reported alive although no version is stored at slot 0 (the claim would
require `is_alive` to be false there). -/
theorem c3_is_alive_counterexample :
    Entities.is_alive Entities.empty ⟨0, 1⟩ = true ∧
    Entities.empty.entity_versions[(0 : Nat)]? ≠ some 1 := by
  decide

/-- C3 amended: `is_alive(e)` is true iff slot `e.id` lies beyond the stored
version vector (such ids are treated as alive) or the stored version at slot
`e.id` equals `e.version`. -/
theorem c3_is_alive_amended (es : Entities) (e : Entity) :
    es.is_alive e = true ↔
      (es.entity_versions.length ≤ e.id ∨ es.entity_versions[e.id]? = some e.version) := by
  unfold Entities.is_alive
  cases h : es.entity_versions[e.id]? with
  | none =>
    simp only [List.getElem?_eq_none_iff] at h
    simp [h]
  | some v =>
    have hlt : e.id < es.entity_versions.length := by
      by_contra hge
      rw [List.getElem?_eq_none_iff.mpr (by omega)] at h
      cases h
    constructor
    · intro hb
      simp only [beq_iff_eq] at hb
      exact Or.inr (by simp [hb])
    · intro hor
      rcases hor with hor | hor
      · omega
      · simp [Option.some.inj hor]

/-- `EventQueue<E>` (`event.rs` lines 10-16): double buffer plus global
counters. -/
structure EventQueue (E : Type) where
  old : List E
  old_count : Nat
  new : List E
  new_count : Nat
  count : Nat
deriving DecidableEq

/-- `EventQueue::new` (`event.rs` lines 27-35). -/
def EventQueue.emptyQ : EventQueue E :=
  { old := [], old_count := 0, new := [], new_count := 0, count := 0 }

/-- `EventQueue::send` (`event.rs` lines 37-40). -/
def EventQueue.send (q : EventQueue E) (e : E) : EventQueue E :=
  { q with new := q.new ++ [e], count := q.count + 1 }

/-- `EventQueue::update` (`event.rs` lines 49-54): swap the buffers, clear
`new`, rotate the counters. -/
def EventQueue.update (q : EventQueue E) : EventQueue E :=
  { old := q.new, old_count := q.new_count
    new := [], new_count := q.new_count + q.new.length
    count := q.count }

/-- `EventIterator::new` (`event.rs` lines 133-147) followed by exhausting the
iterator: the cursor is first clamped up to `old_count`, the two buffers are
sliced, and every yielded item advances the cursor by one.  Returns the
yielded items (in order) and the final cursor. -/
def EventQueue.readAll (q : EventQueue E) (last_count : Nat) : List E × Nat :=
  let m := max last_count q.old_count
  let oi := min (m - q.old_count) q.old.length
  let ni := min (m - q.new_count) q.new.length
  let items := q.old.drop oi ++ q.new.drop ni
  (items, m + items.length)

/-- An operation on an event queue: a send or an `update()` rotation. -/
inductive EOp (E : Type) where
  | send (e : E)
  | update
deriving DecidableEq

/-- Apply one queue operation. -/
def EventQueue.applyOp (q : EventQueue E) : EOp E → EventQueue E
  | .send e => q.send e
  | .update => q.update

/-- Apply a sequence of queue operations front-to-back. -/
def EventQueue.applyOps (q : EventQueue E) (ops : List (EOp E)) : EventQueue E :=
  ops.foldl EventQueue.applyOp q

/-- The events sent by a sequence of operations, in insertion order. -/
def sentEvents : List (EOp E) → List E
  | [] => []
  | .send e :: rest => e :: sentEvents rest
  | .update :: rest => sentEvents rest

/-- Relation between a queue state and the full send history: events are
numbered globally in send order, `old` holds numbers `[old_count, new_count)`
and `new` holds `[new_count, count)`. -/
structure QueueInv (q : EventQueue E) (sent : List E) : Prop where
  count_eq : q.count = sent.length
  old_le : q.old_count ≤ q.new_count
  new_le : q.new_count ≤ sent.length
  old_eq : q.old = (sent.drop q.old_count).take (q.new_count - q.old_count)
  new_eq : q.new = sent.drop q.new_count

/-- Dropping a clamped count drops the same elements as the raw count. -/
theorem drop_min_length (l : List α) (n : Nat) : l.drop (min n l.length) = l.drop n := by
  rcases Nat.le_total n l.length with h | h
  · rw [Nat.min_eq_left h]
  · rw [Nat.min_eq_right h, List.drop_eq_nil_of_le h, List.drop_eq_nil_of_le (Nat.le_refl _)]

/-- The fresh queue satisfies the history invariant with an empty history. -/
theorem queueInv_empty : QueueInv (EventQueue.emptyQ : EventQueue E) [] := by
  refine ⟨rfl, Nat.le_refl _, Nat.le_refl _, rfl, rfl⟩

/-- `send` preserves the history invariant, appending the event. -/
theorem queueInv_send {q : EventQueue E} {s : List E} (h : QueueInv q s) (e : E) :
    QueueInv (q.send e) (s ++ [e]) := by
  obtain ⟨hc, ho, hn, hoe, hne⟩ := h
  refine ⟨?_, ho, ?_, ?_, ?_⟩
  · simp [EventQueue.send, hc]
  · show q.new_count ≤ (s ++ [e]).length
    simp only [List.length_append, List.length_cons, List.length_nil]
    omega
  · show q.old = ((s ++ [e]).drop q.old_count).take (q.new_count - q.old_count)
    rw [List.drop_append_of_le_length (by omega),
      List.take_append_of_le_length (by simp [List.length_drop]; omega)]
    exact hoe
  · show q.new ++ [e] = (s ++ [e]).drop q.new_count
    rw [List.drop_append_of_le_length hn, hne]

/-- `update` preserves the history invariant (the history is unchanged). -/
theorem queueInv_update {q : EventQueue E} {s : List E} (h : QueueInv q s) :
    QueueInv q.update s := by
  obtain ⟨hc, ho, hn, hoe, hne⟩ := h
  have hnl : q.new.length = s.length - q.new_count := by rw [hne, List.length_drop]
  refine ⟨hc, ?_, ?_, ?_, ?_⟩
  · show q.new_count ≤ q.new_count + q.new.length
    omega
  · show q.new_count + q.new.length ≤ s.length
    omega
  · show q.new = (s.drop q.new_count).take (q.new_count + q.new.length - q.new_count)
    rw [hne]
    rw [List.take_of_length_le (by simp [List.length_drop])]
  · show ([] : List E) = s.drop (q.new_count + q.new.length)
    rw [List.drop_eq_nil_of_le (by omega)]

/-- A whole operation sequence preserves the history invariant. -/
theorem queueInv_applyOps {q : EventQueue E} {s : List E} (h : QueueInv q s)
    (ops : List (EOp E)) : QueueInv (q.applyOps ops) (s ++ sentEvents ops) := by
  induction ops generalizing q s with
  | nil => simpa [EventQueue.applyOps, sentEvents] using h
  | cons op rest ih =>
    cases op with
    | send e =>
      have h2 := ih (queueInv_send h e)
      simpa [EventQueue.applyOps, EventQueue.applyOp, sentEvents, List.append_assoc] using h2
    | update =>
      have h2 := ih (queueInv_update h)
      simpa [EventQueue.applyOps, EventQueue.applyOp, sentEvents] using h2

/-- Under the history invariant, a full read from cursor `c` yields exactly
the suffix of the send history starting at `max c old_count`, and leaves the
cursor at the end of that suffix. -/
theorem readAll_eq {q : EventQueue E} {s : List E} (h : QueueInv q s) (c : Nat) :
    q.readAll c
      = (s.drop (max c q.old_count),
          max c q.old_count + (s.drop (max c q.old_count)).length) := by
  obtain ⟨hc, ho, hn, hoe, hne⟩ := h
  have hitems :
      q.old.drop (min (max c q.old_count - q.old_count) q.old.length)
        ++ q.new.drop (min (max c q.old_count - q.new_count) q.new.length)
      = s.drop (max c q.old_count) := by
    set m := max c q.old_count with hm
    have hom : q.old_count ≤ m := Nat.le_max_right _ _
    rw [drop_min_length, drop_min_length]
    have h1 : q.old.drop (m - q.old_count) = (s.drop m).take (q.new_count - m) := by
      rw [hoe, List.drop_take, List.drop_drop]
      rw [show q.old_count + (m - q.old_count) = m by omega,
        show q.new_count - q.old_count - (m - q.old_count) = q.new_count - m by omega]
    have h2 : q.new.drop (m - q.new_count) = (s.drop m).drop (q.new_count - m) := by
      rw [hne, List.drop_drop, List.drop_drop]
      rw [show q.new_count + (m - q.new_count) = m + (q.new_count - m) by omega]
    rw [h1, h2, List.take_append_drop]
  simp only [EventQueue.readAll]
  rw [hitems]

/-- C6: a reader cursor created before any send (cursor 0), read in full after
a sequence of sends and `update()` rotations that has not dropped any event
(formally: the final `old_count` is 0, i.e. `old` still starts at the first
event ever sent), yields exactly the N sent events in insertion order and
leaves the cursor at N; afterwards, any read from any cursor at or past N —
over any continuation of the operation sequence — yields a suffix of the send
history starting at an index at least N, so none of the first N events is ever
yielded again. -/
theorem c6_event_reader_law (E : Type) (ops : List (EOp E))
    (hnd : (EventQueue.applyOps EventQueue.emptyQ ops).old_count = 0) :
    (EventQueue.readAll (EventQueue.applyOps EventQueue.emptyQ ops) 0).1 = sentEvents ops ∧
    (EventQueue.readAll (EventQueue.applyOps EventQueue.emptyQ ops) 0).2
        = (sentEvents ops).length ∧
    ∀ (more : List (EOp E)) (c : Nat), (sentEvents ops).length ≤ c →
      ∃ k, (sentEvents ops).length ≤ k ∧
        (EventQueue.readAll (EventQueue.applyOps EventQueue.emptyQ (ops ++ more)) c).1
          = (sentEvents (ops ++ more)).drop k := by
  have hinv : QueueInv (EventQueue.applyOps EventQueue.emptyQ ops) (sentEvents ops) := by
    simpa using queueInv_applyOps queueInv_empty ops
  have hr := readAll_eq hinv 0
  rw [hnd] at hr
  simp only [Nat.max_self, List.drop_zero] at hr
  refine ⟨by rw [hr], by rw [hr]; simp, ?_⟩
  intro more c hc
  have hinv2 : QueueInv (EventQueue.applyOps EventQueue.emptyQ (ops ++ more))
      (sentEvents (ops ++ more)) := by
    simpa using queueInv_applyOps queueInv_empty (ops ++ more)
  have hr2 := readAll_eq hinv2 c
  refine ⟨max c (EventQueue.applyOps EventQueue.emptyQ (ops ++ more)).old_count,
    Nat.le_trans hc (Nat.le_max_left _ _), ?_⟩
  rw [hr2]

/-- Witness for C6: two sends then one rotation; the full read from cursor 0
yields both events in order. -/
theorem c6_event_reader_law_witness :
    (EventQueue.readAll
        (EventQueue.applyOps EventQueue.emptyQ [EOp.send 12, EOp.send 1, EOp.update]) 0).1
      = [12, 1] := by
  have h := c6_event_reader_law Nat [EOp.send 12, EOp.send 1, EOp.update] (by decide)
  simpa [sentEvents] using h.1

end EcsSpec
